import Mathlib

/-!
# memguard: guard-zone painting, checking and the registry sweep

A shallow embedding of `memguard.c` / `memguard.h`.

* Memory is a flat, byte-addressed map from addresses to bytes.  Addresses are
  natural numbers, so pointer arithmetic (`front + GUARD_LEN + ...`) does not wrap.
* `size_t` arithmetic does wrap: the C expression `(count * size)` is computed in
  an unsigned type of `w` bits, so every definition that contains it takes the
  width `w` as a parameter and reduces the product modulo `2 ^ w`.
* `printf` output is a list of structured messages, one per call, that carry the
  arguments handed to the format string.
* The static `memguard_context` is a field of the program state, apart from the
  byte memory that holds the guarded buffers: no guard zone lies inside the context.
* `front[i] != GUARD_SENTINEL` compares a `char` with `0x77`; for either signedness
  of `char` it holds exactly when the stored byte is not `0x77`.
-/

namespace Memguard

/-! ## Constants and the memory model -/

/-- One byte of memory (`uint8_t`). -/
abbrev Byte := Fin 256

/-- Flat byte-addressed memory. -/
abbrev Mem := Nat → Byte

/-- The macro `GUARD_LEN` of `memguard.h`. -/
def GUARD_LEN : Nat := 16

/-- The macro `MAX_GUARDED_OBJECTS` of `memguard.c`. -/
def MAX_GUARDED_OBJECTS : Nat := 30

/-- The constant `GUARD_SENTINEL` of `memguard.c`. -/
def GUARD_SENTINEL : Byte := 0x77

/-- A store of one byte `v` at address `a`. -/
def Mem.write (m : Mem) (a : Nat) (v : Byte) : Mem :=
  fun x => if x = a then v else m x

/-- The library call `memset(p, v, n)`: the `n` bytes from `p` on become `v`. -/
def memset (m : Mem) (p : Nat) (v : Byte) : Nat → Mem
  | 0 => m
  | n + 1 => (memset m p v n).write (p + n) v

/-- A sequence of single-byte stores, applied first to last. -/
def apply_writes (m : Mem) (ws : List (Nat × Byte)) : Mem :=
  ws.foldl (fun acc p => acc.write p.1 p.2) m

/-! ## Painting and checking one region -/

/-- The function `memguard_object_prep`: both guard zones are set to the sentinel. -/
def memguard_object_prep (w : Nat) (m : Mem) (target size count : Nat) : Mem :=
  let front := target
  let back := front + GUARD_LEN + (count * size) % 2 ^ w
  let m1 := memset m front GUARD_SENTINEL GUARD_LEN
  memset m1 back GUARD_SENTINEL GUARD_LEN

/-- One iteration of the loop of `memguard_object_check`, at index `i`. -/
def check_step (m : Mem) (front back : Nat) (miss_count i : Nat) : Nat :=
  let miss_count := if m (front + i) ≠ GUARD_SENTINEL then miss_count + 1 else miss_count
  if m (back + i) ≠ GUARD_SENTINEL then miss_count + 1 else miss_count

/-- The value of `miss_count` after the iterations `i = 0 .. n-1` of the loop of
`memguard_object_check`.  It never exceeds `2 * n`, so for `n = GUARD_LEN` the
`uint32_t` counter cannot wrap. -/
def check_miss_count (m : Mem) (front back : Nat) (n : Nat) : Nat :=
  (List.range n).foldl (check_step m front back) 0

/-- The function `memguard_object_check`: the conversion of `miss_count` to `bool`. -/
def memguard_object_check (w : Nat) (m : Mem) (target size count : Nat) : Bool :=
  let front := target
  let back := front + GUARD_LEN + (count * size) % 2 ^ w
  decide (check_miss_count m front back GUARD_LEN ≠ 0)

/-! ## Address ranges of a region -/

/-- Address `a` lies in the front guard zone `[target, target + GUARD_LEN)`. -/
def in_front (target a : Nat) : Prop :=
  target ≤ a ∧ a < target + GUARD_LEN

/-- Address `a` lies in the back guard zone, `GUARD_LEN` bytes that start at
`target + GUARD_LEN + (count * size)`. -/
def in_back (w target size count a : Nat) : Prop :=
  target + GUARD_LEN + (count * size) % 2 ^ w ≤ a ∧
    a < target + 2 * GUARD_LEN + (count * size) % 2 ^ w

/-- Address `a` lies in one of the two guard zones. -/
def in_guard (w target size count a : Nat) : Prop :=
  in_front target a ∨ in_back w target size count a

instance (target a : Nat) : Decidable (in_front target a) := by
  unfold in_front; infer_instance

instance (w target size count a : Nat) : Decidable (in_back w target size count a) := by
  unfold in_back; infer_instance

instance (w target size count a : Nat) : Decidable (in_guard w target size count a) := by
  unfold in_guard; infer_instance

/-- Address `a` lies in the user-visible span between the two guard zones. -/
def in_user (w target size count a : Nat) : Prop :=
  target + GUARD_LEN ≤ a ∧ a < target + GUARD_LEN + (count * size) % 2 ^ w

instance (w target size count a : Nat) : Decidable (in_user w target size count a) := by
  unfold in_user; infer_instance

/-! ## Diagnostics -/

/-- One line of `printf` output, with the arguments of its format string. -/
inductive LogMsg where
  /-- The line `-Info- Registering: %s, %p, size %u, count: %u`. -/
  | registering (name : String) (target : Nat) (size : Nat) (count : Nat)
  /-- The line `-Warning- Out of guard slots`. -/
  | out_of_slots
  /-- The line `-Error- !!clobber!! %p, %s: [%s] ... [%s]`. -/
  | clobber (target : Nat) (name : String) (s_front : String) (s_back : String)
  deriving DecidableEq

/-- The terminating character of a C string. -/
def NUL : Char := Char.ofNat 0

/-- The array `digits` of `bin_to_hex`. -/
def digits : List Char :=
  String.toList "0123456789abcdef"

/-- One iteration of the loop of `bin_to_hex`: the two characters stored for
byte `i` of the source are appended to what `dst` holds so far. -/
def bin_to_hex_step (m : Mem) (src : Nat) (d : List Char) (i : Nat) : List Char :=
  let b := (m (src + i)).val
  d ++ [digits.getD ((b >>> 4) &&& 0xf) NUL, digits.getD (b &&& 0xf) NUL]

/-- The function `bin_to_hex`: the characters stored through `dst`, in order, the
terminating NUL included.  The source bytes are read from memory at `src`.  Both
callers pass `srclen = GUARD_LEN`, so the `uint32_t` index does not wrap; this is
what the loop `bin_to_hex_loop`, which has the wrapping index, returns for every
`srclen` below `2 ^ 32`. -/
def bin_to_hex (m : Mem) (src srclen : Nat) : List Char :=
  (List.range srclen).foldl (bin_to_hex_step m src) [] ++ [NUL]

/-- The macro `SL` of `memguard_report_clobber`. -/
def SL : Nat := GUARD_LEN * 2 + 16

/-- A zero-initialised `char` array of `len` bytes after `written` has been stored
from its start. -/
def fill_buffer (len : Nat) (written : List Char) : List Char :=
  written ++ List.replicate (len - written.length) NUL

/-- What `%s` prints for a buffer: the characters before the first NUL. -/
def c_string (buf : List Char) : String :=
  String.mk (buf.takeWhile (fun c => c ≠ NUL))

/-- The function `memguard_report_clobber`: one clobber line is added to the output. -/
def memguard_report_clobber (w : Nat) (m : Mem) (out : List LogMsg)
    (target size count : Nat) (name : String) : List LogMsg :=
  let front := target
  let back := front + GUARD_LEN + (count * size) % 2 ^ w
  let s_front := fill_buffer SL (bin_to_hex m front GUARD_LEN)
  let s_back := fill_buffer SL (bin_to_hex m back GUARD_LEN)
  out ++ [LogMsg.clobber target name (c_string s_front) (c_string s_back)]

/-! ## The registry -/

/-- The struct `guarded_record_t`. -/
structure guarded_record_t where
  target : Nat
  size : Nat
  count : Nat
  name : String
  deriving DecidableEq

/-- The struct `memguard_context_t`: an array of `MAX_GUARDED_OBJECTS` records and
the number of slots in use. -/
structure memguard_context_t where
  records : Fin MAX_GUARDED_OBJECTS → guarded_record_t
  count : Nat

/-- The program state: the static `memguard_context`, the memory that holds the
guarded buffers, and the lines printed so far. -/
structure State where
  memguard_context : memguard_context_t
  mem : Mem
  out : List LogMsg

/-- An array read `records[i]`; `none` when `i` is outside the array. -/
def record_at (ctx : memguard_context_t) (i : Nat) : Option guarded_record_t :=
  if h : i < MAX_GUARDED_OBJECTS then some (ctx.records ⟨i, h⟩) else none

/-- The records in the slots `0 .. count-1`, in slot order; an index outside the
array has no record. -/
def registered (ctx : memguard_context_t) : List guarded_record_t :=
  (List.range ctx.count).filterMap (record_at ctx)

/-- The function `memguard_init`: the whole context is zeroed. -/
def memguard_init (s : State) : State :=
  { s with memguard_context := { records := fun _ => ⟨0, 0, 0, ""⟩, count := 0 } }

/-- The function `memguard_object_register`. -/
def memguard_object_register (w : Nat) (s : State) (target size count : Nat)
    (name : String) : Bool × State :=
  if h : s.memguard_context.count < MAX_GUARDED_OBJECTS then
    let out := s.out ++ [LogMsg.registering name target (size % 2 ^ 32) count]
    let gr : Fin MAX_GUARDED_OBJECTS := ⟨s.memguard_context.count, h⟩
    let ctx : memguard_context_t :=
      { records := fun j => if j = gr then ⟨target, size, count, name⟩
                            else s.memguard_context.records j,
        count := s.memguard_context.count + 1 }
    (true, { memguard_context := ctx,
             mem := memguard_object_prep w s.mem target size count,
             out := out })
  else
    (false, { s with out := s.out ++ [LogMsg.out_of_slots] })

/-- The function `memguard_local_object_check`. -/
def memguard_local_object_check (w : Nat) (s : State) (target size count : Nat)
    (name : String) : Bool × State :=
  if memguard_object_check w s.mem target size count then
    (true, { s with out := memguard_report_clobber w s.mem s.out target size count name })
  else
    (false, s)

/-- The variables that the loop of `memguard_check` updates. -/
structure SweepState where
  fails : Nat
  mem : Mem
  out : List LogMsg

/-- The body of the loop of `memguard_check` for the record `gr`.  `fails` is
incremented at most once per slot, so it stays far below `2 ^ 32`. -/
def sweep_step (w : Nat) (st : SweepState) (gr : guarded_record_t) : SweepState :=
  if memguard_object_check w st.mem gr.target gr.size gr.count then
    { fails := st.fails + 1,
      out := memguard_report_clobber w st.mem st.out gr.target gr.size gr.count gr.name,
      mem := memguard_object_prep w st.mem gr.target gr.size gr.count }
  else
    st

/-- The loop of `memguard_check` over the indices `0 .. count-1`; `none` when an
index falls outside the `records` array. -/
def memguard_check_loop (w : Nat) (ctx : memguard_context_t) (st : SweepState) :
    Option SweepState :=
  (List.range ctx.count).foldlM
    (fun st i => (record_at ctx i).map (sweep_step w st)) st

/-- The function `memguard_check`: the returned failure count and the state
afterwards. -/
def memguard_check (w : Nat) (s : State) : Option (Nat × State) :=
  (memguard_check_loop w s.memguard_context ⟨0, s.mem, s.out⟩).map
    (fun st => (st.fails, { s with mem := st.mem, out := st.out }))

/-- The loop body of `memguard_check` applied to a list of records in order. -/
def sweep (w : Nat) (st : SweepState) (rs : List guarded_record_t) : SweepState :=
  rs.foldl (sweep_step w) st

/-- The record check engine applied to a record. -/
def corrupted (w : Nat) (m : Mem) (gr : guarded_record_t) : Bool :=
  memguard_object_check w m gr.target gr.size gr.count

/-- The storage ranges `[target, target + 2 * GUARD_LEN + count * size)` of two
records do not meet. -/
def disjoint_storage (w : Nat) (a b : guarded_record_t) : Prop :=
  a.target + 2 * GUARD_LEN + (a.count * a.size) % 2 ^ w ≤ b.target ∨
    b.target + 2 * GUARD_LEN + (b.count * b.size) % 2 ^ w ≤ a.target

instance (w : Nat) (a b : guarded_record_t) : Decidable (disjoint_storage w a b) := by
  unfold disjoint_storage; infer_instance

/-- A run of `memguard_object_register` calls, first to last: the values returned
and the final state. -/
def register_all (w : Nat) (s : State) :
    List (Nat × Nat × Nat × String) → List Bool × State
  | [] => ([], s)
  | (target, size, count, name) :: rest =>
    let r := memguard_object_register w s target size count name
    let rs := register_all w r.2 rest
    (r.1 :: rs.1, rs.2)

/-- The record that a successful registration call stores. -/
def to_record (c : Nat × Nat × Nat × String) : guarded_record_t :=
  ⟨c.1, c.2.1, c.2.2.1, c.2.2.2⟩

/-! ## The demonstration program -/

/-- The state after `memguard_init()` in `main`, with all of memory zero. -/
def demo_init : State :=
  memguard_init ⟨⟨fun _ => ⟨0, 0, 0, ""⟩, 0⟩, fun _ => 0, []⟩

/-- The state after `REGISTER_STATIC_GUARDED_ARRAY(bob, int16_t, 64)`, with the
storage of `bob` placed at address 1000. -/
def demo_bob : State :=
  (memguard_object_register 64 demo_init 1000 2 64 "bob").2

/-- The state after `REGISTER_STATIC_GUARDED_ARRAY(sue, double, 512)`, with the
storage of `sue` placed at address 2000. -/
def demo_sue : State :=
  (memguard_object_register 64 demo_bob 2000 8 512 "sue").2

/-- Scenario B: one byte stored at offset 128 of the user area of `bob`. -/
def demo_clobbered : State :=
  { demo_sue with mem := demo_sue.mem.write (1000 + 16 + 128) 0xab }

/-- The same region registered twice, then clobbered in its front guard zone. -/
def demo_twice : State :=
  let s1 := (memguard_object_register 64 demo_bob 1000 2 64 "bob2").2
  { s1 with mem := s1.mem.write 1003 0x00 }

/-- Registration calls with distinct labels and separate storage, `n` of them. -/
def demo_calls (n : Nat) : List (Nat × Nat × Nat × String) :=
  (List.range n).map (fun i => (1000 * i, 4, 8, String.mk [Char.ofNat (65 + i)]))

/-- The state after `MAX_GUARDED_OBJECTS` registrations. -/
def demo_full : State :=
  (register_all 64 demo_init (demo_calls MAX_GUARDED_OBJECTS)).2

/-! ## The loop of `bin_to_hex` with its 32-bit index -/

/-- The loop `for (uint32_t i = 0; i < srclen; i++)` of `bin_to_hex` from index `i`
on, with the characters `d` stored so far.  The index wraps at `2 ^ 32`; each
iteration uses one unit of `fuel`, and `none` means the fuel ran out before the
loop was left. -/
def bin_to_hex_loop (m : Mem) (src srclen : Nat) : Nat → Nat → List Char → Option (List Char)
  | 0, _, _ => none
  | fuel + 1, i, d =>
    if i < srclen then
      bin_to_hex_loop m src srclen fuel ((i + 1) % 2 ^ 32) (bin_to_hex_step m src d i)
    else
      some (d ++ [NUL])

/-! ## Hexadecimal text -/

/-- The `n` bytes of memory from address `p` on. -/
def read_bytes (m : Mem) (p n : Nat) : List Byte :=
  (List.range n).map (fun i => m (p + i))

/-- The hexadecimal digit of a nibble value. -/
def nibble_char (n : Nat) : Char :=
  digits.getD n NUL

/-- The hexadecimal dump of a byte sequence: two digits per byte, the high nibble
first. -/
def hex_encode : List Byte → List Char
  | [] => []
  | b :: bs => nibble_char (b.val / 16) :: nibble_char (b.val % 16) :: hex_encode bs

/-- The value of a hexadecimal digit; `none` for any other character. -/
def hex_val (c : Char) : Option Nat :=
  if c ∈ digits then some (digits.indexOf c) else none

/-- The bytes that a hexadecimal text stands for; `none` when the text has an odd
length or a character that is no digit. -/
def hex_decode : List Char → Option (List Byte)
  | [] => some []
  | [_] => none
  | hi :: lo :: rest =>
    match hex_val hi, hex_val lo, hex_decode rest with
    | some h, some l, some bs => some (⟨(16 * h + l) % 256, Nat.mod_lt _ (by decide)⟩ :: bs)
    | _, _, _ => none

/-! ## The reports of a sweep -/

/-- The line that `memguard_report_clobber` prints for the record `gr` when the
memory is `m`. -/
def clobber_line (w : Nat) (m : Mem) (gr : guarded_record_t) : LogMsg :=
  LogMsg.clobber gr.target gr.name
    (c_string (fill_buffer SL (bin_to_hex m gr.target GUARD_LEN)))
    (c_string (fill_buffer SL
      (bin_to_hex m (gr.target + GUARD_LEN + (gr.count * gr.size) % 2 ^ w) GUARD_LEN)))

/-- The entries found corrupted when visited: the records are gone through in
order, each one is checked against the memory as it is at its turn, and a record
found corrupted is listed together with that memory and is then repainted. -/
def found_corrupted (w : Nat) (m : Mem) :
    List guarded_record_t → List (guarded_record_t × Mem)
  | [] => []
  | gr :: rs =>
    if corrupted w m gr then
      (gr, m) :: found_corrupted w (memguard_object_prep w m gr.target gr.size gr.count) rs
    else
      found_corrupted w m rs

/-! ## Sequences of calls -/

/-- A call of one of the operations of the module; `memguard_init` is the start. -/
inductive Op where
  | register (target size count : Nat) (name : String)
  | prep (target size count : Nat)
  | check
  | local_check (target size count : Nat) (name : String)

/-- The state after one call; `none` when `memguard_check` reads outside the
`records` array. -/
def step (w : Nat) (s : State) : Op → Option State
  | Op.register target size count name =>
    some (memguard_object_register w s target size count name).2
  | Op.prep target size count =>
    some { s with mem := memguard_object_prep w s.mem target size count }
  | Op.check => (memguard_check w s).map Prod.snd
  | Op.local_check target size count name =>
    some (memguard_local_object_check w s target size count name).2

/-- The state after a sequence of calls, first to last. -/
def run (w : Nat) (s : State) : List Op → Option State
  | [] => some s
  | op :: ops => (step w s op).bind (fun s1 => run w s1 ops)

/-! ## Lemmas on memory -/

theorem memset_apply (m : Mem) (p : Nat) (v : Byte) (n x : Nat) :
    memset m p v n x = if p ≤ x ∧ x < p + n then v else m x := by
  induction n with
  | zero =>
    have h : ¬ (p ≤ x ∧ x < p) := by omega
    simp [memset, h]
  | succ n ih =>
    simp only [memset, Mem.write, ih]
    by_cases h1 : x = p + n
    · subst h1; simp
    · simp only [h1, if_false]
      by_cases h2 : p ≤ x ∧ x < p + n
      · have h3 : p ≤ x ∧ x < p + (n + 1) := ⟨h2.1, by omega⟩
        simp [h2, h3]
      · have h3 : ¬ (p ≤ x ∧ x < p + (n + 1)) := by omega
        simp [h2, h3]

theorem prep_apply (w : Nat) (m : Mem) (target size count a : Nat) :
    memguard_object_prep w m target size count a =
      if in_guard w target size count a then GUARD_SENTINEL else m a := by
  simp only [memguard_object_prep, memset_apply, in_guard, in_front, in_back]
  by_cases hb : target + GUARD_LEN + (count * size) % 2 ^ w ≤ a ∧
      a < target + GUARD_LEN + (count * size) % 2 ^ w + GUARD_LEN
  · have hb2 : target + GUARD_LEN + (count * size) % 2 ^ w ≤ a ∧
        a < target + 2 * GUARD_LEN + (count * size) % 2 ^ w := ⟨hb.1, by omega⟩
    simp [hb, hb2]
  · have hb2 : ¬ (target + GUARD_LEN + (count * size) % 2 ^ w ≤ a ∧
        a < target + 2 * GUARD_LEN + (count * size) % 2 ^ w) := by omega
    simp [hb, hb2]

theorem check_step_mono (m : Mem) (front back c i : Nat) :
    c ≤ check_step m front back c i := by
  simp only [check_step]
  split_ifs <;> omega

theorem check_step_pos (m : Mem) (front back c i : Nat) :
    check_step m front back c i ≠ 0 ↔
      c ≠ 0 ∨ m (front + i) ≠ GUARD_SENTINEL ∨ m (back + i) ≠ GUARD_SENTINEL := by
  simp only [check_step]
  split_ifs with h1 h2 h2 <;> simp_all

theorem check_miss_count_pos (m : Mem) (front back n : Nat) :
    check_miss_count m front back n ≠ 0 ↔
      ∃ i, i < n ∧ (m (front + i) ≠ GUARD_SENTINEL ∨ m (back + i) ≠ GUARD_SENTINEL) := by
  induction n with
  | zero => simp [check_miss_count]
  | succ n ih =>
    unfold check_miss_count at ih ⊢
    rw [List.range_succ, List.foldl_append, List.foldl_cons, List.foldl_nil,
      check_step_pos, ih]
    constructor
    · rintro (⟨i, hi, h⟩ | h)
      · exact ⟨i, by omega, h⟩
      · exact ⟨n, by omega, h⟩
    · rintro ⟨i, hi, h⟩
      by_cases hin : i = n
      · subst hin; exact Or.inr h
      · exact Or.inl ⟨i, by omega, h⟩

/-- The loop counter of `memguard_object_check` stays below `2 ^ 32`. -/
theorem check_miss_count_le (m : Mem) (front back n : Nat) :
    check_miss_count m front back n ≤ 2 * n := by
  induction n with
  | zero => simp [check_miss_count]
  | succ n ih =>
    unfold check_miss_count at ih ⊢
    rw [List.range_succ, List.foldl_append, List.foldl_cons, List.foldl_nil]
    simp only [check_step]
    split_ifs <;> omega

/-- The check engine in terms of addresses: it answers `true` exactly when some
address of a guard zone holds a byte other than the sentinel. -/
theorem check_true_iff (w : Nat) (m : Mem) (target size count : Nat) :
    memguard_object_check w m target size count = true ↔
      ∃ a, in_guard w target size count a ∧ m a ≠ GUARD_SENTINEL := by
  simp only [memguard_object_check, decide_eq_true_eq, check_miss_count_pos,
    in_guard, in_front, in_back]
  constructor
  · rintro ⟨i, hi, h | h⟩
    · exact ⟨target + i, Or.inl ⟨by omega, by omega⟩, h⟩
    · exact ⟨target + GUARD_LEN + (count * size) % 2 ^ w + i,
        Or.inr ⟨by omega, by omega⟩, h⟩
  · rintro ⟨a, ha | ha, h⟩
    · refine ⟨a - target, by omega, Or.inl ?_⟩
      have : target + (a - target) = a := by omega
      rw [this]; exact h
    · refine ⟨a - (target + GUARD_LEN + (count * size) % 2 ^ w), by omega, Or.inr ?_⟩
      have : target + GUARD_LEN + (count * size) % 2 ^ w +
          (a - (target + GUARD_LEN + (count * size) % 2 ^ w)) = a := by omega
      rw [this]; exact h

theorem check_false_iff (w : Nat) (m : Mem) (target size count : Nat) :
    memguard_object_check w m target size count = false ↔
      ∀ a, in_guard w target size count a → m a = GUARD_SENTINEL := by
  rw [← Bool.not_eq_true, check_true_iff]
  push_neg
  rfl

theorem write_apply (m : Mem) (a : Nat) (v : Byte) (x : Nat) :
    m.write a v x = if x = a then v else m x := rfl

/-- The product `count * size` is the mathematical one when it fits in `w` bits. -/
theorem span_of_lt (w size count : Nat) (h : size * count < 2 ^ w) :
    (count * size) % 2 ^ w = size * count := by
  rw [Nat.mul_comm count size]
  exact Nat.mod_eq_of_lt h

/-- The check engine reads guard-zone bytes only. -/
theorem check_congr (w : Nat) (m1 m2 : Mem) (target size count : Nat)
    (h : ∀ a, in_guard w target size count a → m1 a = m2 a) :
    memguard_object_check w m1 target size count =
      memguard_object_check w m2 target size count := by
  rw [Bool.eq_iff_iff, check_true_iff, check_true_iff]
  constructor
  · rintro ⟨a, ha, hne⟩
    exact ⟨a, ha, by rw [← h a ha]; exact hne⟩
  · rintro ⟨a, ha, hne⟩
    exact ⟨a, ha, by rw [h a ha]; exact hne⟩

theorem check_prep (w : Nat) (m : Mem) (target size count : Nat) :
    memguard_object_check w (memguard_object_prep w m target size count)
      target size count = false := by
  rw [check_false_iff]
  intro a ha
  rw [prep_apply, if_pos ha]

theorem user_not_guard (w target size count a : Nat)
    (h : in_user w target size count a) : ¬ in_guard w target size count a := by
  unfold in_user at h
  unfold in_guard in_front in_back
  omega

/-- Stores outside the guard zones of a region leave its guard bytes as they were. -/
theorem apply_writes_outside (w target size count : Nat) (ws : List (Nat × Byte))
    (hws : ∀ p ∈ ws, ¬ in_guard w target size count p.1) (m : Mem) (a : Nat)
    (ha : in_guard w target size count a) : apply_writes m ws a = m a := by
  induction ws generalizing m with
  | nil => rfl
  | cons p ps ih =>
    have hp : ¬ in_guard w target size count p.1 := hws p (List.mem_cons_self _ _)
    have hne : a ≠ p.1 := fun e => hp (e ▸ ha)
    have hrest : ∀ q ∈ ps, ¬ in_guard w target size count q.1 :=
      fun q hq => hws q (List.mem_cons_of_mem _ hq)
    show apply_writes (m.write p.1 p.2) ps a = m a
    rw [ih hrest, write_apply, if_neg hne]


/-! ## Lemmas on the sweep -/

theorem record_at_of_lt (ctx : memguard_context_t) (i : Nat)
    (h : i < MAX_GUARDED_OBJECTS) : record_at ctx i = some (ctx.records ⟨i, h⟩) := by
  simp [record_at, h]

/-- The index loop over in-range slots is the loop body folded over the records
read from those slots. -/
theorem foldlM_slots (w : Nat) (ctx : memguard_context_t) (l : List Nat)
    (hl : ∀ i ∈ l, i < MAX_GUARDED_OBJECTS) (st : SweepState) :
    l.foldlM (fun st i => (record_at ctx i).map (sweep_step w st)) st =
      some (sweep w st (l.filterMap (record_at ctx))) := by
  induction l generalizing st with
  | nil => rfl
  | cons i is ih =>
    have hi : i < MAX_GUARDED_OBJECTS := hl i (List.mem_cons_self _ _)
    have his : ∀ j ∈ is, j < MAX_GUARDED_OBJECTS :=
      fun j hj => hl j (List.mem_cons_of_mem _ hj)
    rw [List.foldlM_cons, List.filterMap_cons, record_at_of_lt ctx i hi]
    simp only [Option.map_some', Option.bind_eq_bind, Option.some_bind]
    rw [ih his]
    rfl

theorem check_loop_eq_sweep (w : Nat) (ctx : memguard_context_t)
    (h : ctx.count ≤ MAX_GUARDED_OBJECTS) (st : SweepState) :
    memguard_check_loop w ctx st = some (sweep w st (registered ctx)) := by
  unfold memguard_check_loop registered
  apply foldlM_slots
  intro i hi
  have := List.mem_range.mp hi
  omega

theorem memguard_check_eq (w : Nat) (s : State)
    (h : s.memguard_context.count ≤ MAX_GUARDED_OBJECTS) :
    memguard_check w s =
      some ((sweep w ⟨0, s.mem, s.out⟩ (registered s.memguard_context)).fails,
        { s with
          mem := (sweep w ⟨0, s.mem, s.out⟩ (registered s.memguard_context)).mem,
          out := (sweep w ⟨0, s.mem, s.out⟩ (registered s.memguard_context)).out }) := by
  unfold memguard_check
  rw [check_loop_eq_sweep w _ h]
  rfl

theorem sweep_cons (w : Nat) (st : SweepState) (gr : guarded_record_t)
    (rs : List guarded_record_t) :
    sweep w st (gr :: rs) = sweep w (sweep_step w st gr) rs := rfl

/-- A region that checks as intact stays so when any region is painted: painting
stores the sentinel only. -/
theorem prep_keeps_intact (w : Nat) (m : Mem) (t s c t2 s2 c2 : Nat)
    (h : memguard_object_check w m t s c = false) :
    memguard_object_check w (memguard_object_prep w m t2 s2 c2) t s c = false := by
  rw [check_false_iff] at h ⊢
  intro a ha
  rw [prep_apply]
  split_ifs
  · rfl
  · exact h a ha

theorem sweep_step_keeps_intact (w : Nat) (st : SweepState) (gr r : guarded_record_t)
    (h : corrupted w st.mem r = false) :
    corrupted w (sweep_step w st gr).mem r = false := by
  unfold sweep_step
  split_ifs
  · exact prep_keeps_intact w st.mem _ _ _ _ _ _ h
  · exact h

theorem sweep_step_self_intact (w : Nat) (st : SweepState) (gr : guarded_record_t) :
    corrupted w (sweep_step w st gr).mem gr = false := by
  unfold sweep_step
  split_ifs with h
  · exact check_prep w st.mem gr.target gr.size gr.count
  · simpa [corrupted] using h

theorem sweep_keeps_intact (w : Nat) (rs : List guarded_record_t) (st : SweepState)
    (r : guarded_record_t) (h : corrupted w st.mem r = false) :
    corrupted w (sweep w st rs).mem r = false := by
  induction rs generalizing st with
  | nil => exact h
  | cons gr rs ih =>
    rw [sweep_cons]
    exact ih _ (sweep_step_keeps_intact w st gr r h)

/-- After a sweep every record it went over checks as intact. -/
theorem sweep_all_intact (w : Nat) (rs : List guarded_record_t) (st : SweepState) :
    ∀ r ∈ rs, corrupted w (sweep w st rs).mem r = false := by
  induction rs generalizing st with
  | nil => intro r hr; cases hr
  | cons gr rs ih =>
    intro r hr
    rw [sweep_cons]
    rcases List.mem_cons.mp hr with e | hmem
    · subst e
      exact sweep_keeps_intact w rs _ r (sweep_step_self_intact w st r)
    · exact ih _ r hmem

/-- A sweep over records that all check as intact changes nothing. -/
theorem sweep_of_intact (w : Nat) (rs : List guarded_record_t) (st : SweepState)
    (h : ∀ r ∈ rs, corrupted w st.mem r = false) : sweep w st rs = st := by
  induction rs generalizing st with
  | nil => rfl
  | cons gr rs ih =>
    have hgr : memguard_object_check w st.mem gr.target gr.size gr.count = false :=
      h gr (List.mem_cons_self _ _)
    have hstep : sweep_step w st gr = st := by
      unfold sweep_step
      rw [hgr]
      rfl
    rw [sweep_cons, hstep]
    exact ih st (fun r hr => h r (List.mem_cons_of_mem _ hr))

theorem guard_in_storage (w t s c a : Nat) (h : in_guard w t s c a) :
    t ≤ a ∧ a < t + 2 * GUARD_LEN + (c * s) % 2 ^ w := by
  unfold in_guard in_front in_back at h
  omega

/-- Painting one record leaves the verdict on a record with disjoint storage. -/
theorem sweep_step_disjoint (w : Nat) (st : SweepState) (gr r : guarded_record_t)
    (h : disjoint_storage w gr r) :
    corrupted w (sweep_step w st gr).mem r = corrupted w st.mem r := by
  unfold sweep_step
  split_ifs
  · apply check_congr
    intro a ha
    show memguard_object_prep w st.mem gr.target gr.size gr.count a = st.mem a
    rw [prep_apply, if_neg]
    intro hg
    have h1 := guard_in_storage w _ _ _ a ha
    have h2 := guard_in_storage w _ _ _ a hg
    unfold disjoint_storage at h
    omega
  · rfl

theorem sweep_step_fails (w : Nat) (st : SweepState) (gr : guarded_record_t) :
    (sweep_step w st gr).fails =
      st.fails + if corrupted w st.mem gr = true then 1 else 0 := by
  unfold sweep_step corrupted
  split_ifs <;> rfl

/-- With pairwise disjoint storage the sweep counts the records that were corrupted
when it started. -/
theorem sweep_fails_disjoint (w : Nat) (rs : List guarded_record_t) (st : SweepState)
    (h : rs.Pairwise (disjoint_storage w)) :
    (sweep w st rs).fails = st.fails + rs.countP (corrupted w st.mem) := by
  induction rs generalizing st with
  | nil => rfl
  | cons gr rs ih =>
    obtain ⟨hgr, hrs⟩ := List.pairwise_cons.mp h
    have hcongr : rs.countP (corrupted w (sweep_step w st gr).mem) =
        rs.countP (corrupted w st.mem) :=
      List.countP_congr (fun r hr => by rw [sweep_step_disjoint w st gr r (hgr r hr)])
    rw [sweep_cons, ih _ hrs, hcongr, sweep_step_fails, List.countP_cons]
    omega

/-! ## Lemmas on registration -/

theorem registered_of_count_zero (ctx : memguard_context_t) (h : ctx.count = 0) :
    registered ctx = [] := by
  simp [registered, h]

theorem register_full (w : Nat) (s : State) (target size count : Nat) (name : String)
    (h : ¬ s.memguard_context.count < MAX_GUARDED_OBJECTS) :
    memguard_object_register w s target size count name =
      (false, { s with out := s.out ++ [LogMsg.out_of_slots] }) := by
  unfold memguard_object_register
  rw [dif_neg h]

theorem register_free (w : Nat) (s : State) (target size count : Nat) (name : String)
    (h : s.memguard_context.count < MAX_GUARDED_OBJECTS) :
    memguard_object_register w s target size count name =
      (true,
        { memguard_context :=
            { records := fun j =>
                if j = (⟨s.memguard_context.count, h⟩ : Fin MAX_GUARDED_OBJECTS)
                then ⟨target, size, count, name⟩ else s.memguard_context.records j,
              count := s.memguard_context.count + 1 },
          mem := memguard_object_prep w s.mem target size count,
          out := s.out ++ [LogMsg.registering name target (size % 2 ^ 32) count] }) := by
  unfold memguard_object_register
  rw [dif_pos h]

theorem register_free_registered (w : Nat) (s : State) (target size count : Nat)
    (name : String) (h : s.memguard_context.count < MAX_GUARDED_OBJECTS) :
    registered (memguard_object_register w s target size count name).2.memguard_context =
      registered s.memguard_context ++ [⟨target, size, count, name⟩] := by
  rw [register_free w s target size count name h]
  unfold registered
  simp only
  rw [List.range_succ, List.filterMap_append]
  congr 1
  · apply List.filterMap_congr
    intro i hi
    have hlt : i < s.memguard_context.count := List.mem_range.mp hi
    have hi2 : i < MAX_GUARDED_OBJECTS := by omega
    rw [record_at_of_lt _ i hi2, record_at_of_lt _ i hi2]
    have hne : (⟨i, hi2⟩ : Fin MAX_GUARDED_OBJECTS) ≠ ⟨s.memguard_context.count, h⟩ := by
      intro e
      have := congrArg Fin.val e
      simp at this
      omega
    simp only [if_neg hne]
  · rw [List.filterMap_cons, record_at_of_lt _ _ h]
    simp

theorem register_all_append (w : Nat) (l1 l2 : List (Nat × Nat × Nat × String))
    (s : State) :
    register_all w s (l1 ++ l2) =
      ((register_all w s l1).1 ++ (register_all w (register_all w s l1).2 l2).1,
        (register_all w (register_all w s l1).2 l2).2) := by
  induction l1 generalizing s with
  | nil => rfl
  | cons c cs ih =>
    obtain ⟨target, size, count, name⟩ := c
    show register_all w s ((target, size, count, name) :: (cs ++ l2)) = _
    simp only [register_all, ih, List.cons_append]

/-- While slots are left, every call of a run succeeds and appends its record. -/
theorem register_all_free (w : Nat) (calls : List (Nat × Nat × Nat × String))
    (s : State) (h : s.memguard_context.count + calls.length ≤ MAX_GUARDED_OBJECTS) :
    (register_all w s calls).1 = List.replicate calls.length true ∧
    (register_all w s calls).2.memguard_context.count =
      s.memguard_context.count + calls.length ∧
    registered (register_all w s calls).2.memguard_context =
      registered s.memguard_context ++ calls.map to_record := by
  induction calls generalizing s with
  | nil => simp [register_all]
  | cons c cs ih =>
    obtain ⟨target, size, count, name⟩ := c
    have hlen : (((target, size, count, name) :: cs) : List _).length = cs.length + 1 := rfl
    have hfree : s.memguard_context.count < MAX_GUARDED_OBJECTS := by omega
    have hret : (memguard_object_register w s target size count name).1 = true := by
      rw [register_free w s target size count name hfree]
    have hcount : (memguard_object_register w s target size count name).2.memguard_context.count
        = s.memguard_context.count + 1 := by
      rw [register_free w s target size count name hfree]
    have hreg := register_free_registered w s target size count name hfree
    obtain ⟨h1, h2, h3⟩ := ih (memguard_object_register w s target size count name).2
      (by omega)
    simp only [register_all]
    refine ⟨?_, ?_, ?_⟩
    · rw [hret, h1, hlen, List.replicate_succ]
    · rw [h2, hcount, hlen]; omega
    · rw [h3, hreg, List.map_cons, List.append_assoc]
      rfl

/-! ## Lemmas on hexadecimal text -/

set_option maxRecDepth 100000 in
theorem nibble_index_hi : ∀ b : Byte, (b.val >>> 4) &&& 0xf = b.val / 16 := by
  decide

set_option maxRecDepth 100000 in
theorem nibble_index_lo : ∀ b : Byte, b.val &&& 0xf = b.val % 16 := by
  decide

theorem nibble_char_mem : ∀ k : Fin 16, nibble_char k.val ∈ digits := by
  decide

theorem nibble_char_ne_nul : ∀ k : Fin 16, nibble_char k.val ≠ NUL := by
  decide

theorem hex_val_nibble_char : ∀ k : Fin 16, hex_val (nibble_char k.val) = some k.val := by
  decide

theorem byte_div_lt (b : Byte) : b.val / 16 < 16 := by
  have := b.isLt
  omega

theorem byte_mod_lt (b : Byte) : b.val % 16 < 16 := by
  omega

theorem bin_to_hex_step_eq (m : Mem) (src : Nat) (d : List Char) (i : Nat) :
    bin_to_hex_step m src d i =
      d ++ [nibble_char ((m (src + i)).val / 16), nibble_char ((m (src + i)).val % 16)] := by
  simp only [bin_to_hex_step, nibble_char, nibble_index_hi, nibble_index_lo]

theorem hex_encode_append (l1 l2 : List Byte) :
    hex_encode (l1 ++ l2) = hex_encode l1 ++ hex_encode l2 := by
  induction l1 with
  | nil => rfl
  | cons b bs ih => simp [hex_encode, ih]

theorem read_bytes_succ (m : Mem) (p n : Nat) :
    read_bytes m p (n + 1) = read_bytes m p n ++ [m (p + n)] := by
  simp [read_bytes, List.range_succ]

theorem read_bytes_length (m : Mem) (p n : Nat) : (read_bytes m p n).length = n := by
  simp [read_bytes]

theorem hex_encode_length (bs : List Byte) : (hex_encode bs).length = 2 * bs.length := by
  induction bs with
  | nil => rfl
  | cons b bs ih => simp only [hex_encode, List.length_cons, ih]; omega

theorem foldl_bin_to_hex_step (m : Mem) (src n : Nat) (d : List Char) :
    (List.range n).foldl (bin_to_hex_step m src) d = d ++ hex_encode (read_bytes m src n) := by
  induction n with
  | zero => simp [read_bytes, hex_encode]
  | succ n ih =>
    rw [List.range_succ, List.foldl_append, List.foldl_cons, List.foldl_nil, ih,
      bin_to_hex_step_eq, read_bytes_succ, hex_encode_append, List.append_assoc]
    rfl

/-- The characters that `bin_to_hex` stores: the dump of the source bytes and a NUL. -/
theorem bin_to_hex_eq (m : Mem) (src n : Nat) :
    bin_to_hex m src n = hex_encode (read_bytes m src n) ++ [NUL] := by
  unfold bin_to_hex
  rw [foldl_bin_to_hex_step, List.nil_append]

theorem hex_encode_mem_digits (bs : List Byte) : ∀ c ∈ hex_encode bs, c ∈ digits := by
  induction bs with
  | nil => intro c hc; cases hc
  | cons b bs ih =>
    intro c hc
    simp only [hex_encode, List.mem_cons] at hc
    rcases hc with e | e | hc
    · rw [e]; exact nibble_char_mem ⟨b.val / 16, byte_div_lt b⟩
    · rw [e]; exact nibble_char_mem ⟨b.val % 16, byte_mod_lt b⟩
    · exact ih c hc

theorem hex_encode_ne_nul (bs : List Byte) : ∀ c ∈ hex_encode bs, c ≠ NUL := by
  induction bs with
  | nil => intro c hc; cases hc
  | cons b bs ih =>
    intro c hc
    simp only [hex_encode, List.mem_cons] at hc
    rcases hc with e | e | hc
    · rw [e]; exact nibble_char_ne_nul ⟨b.val / 16, byte_div_lt b⟩
    · rw [e]; exact nibble_char_ne_nul ⟨b.val % 16, byte_mod_lt b⟩
    · exact ih c hc

/-- Decoding a dump gives the bytes back. -/
theorem hex_decode_encode (bs : List Byte) : hex_decode (hex_encode bs) = some bs := by
  induction bs with
  | nil => rfl
  | cons b bs ih =>
    have h1 := hex_val_nibble_char ⟨b.val / 16, byte_div_lt b⟩
    have h2 := hex_val_nibble_char ⟨b.val % 16, byte_mod_lt b⟩
    simp only at h1 h2
    simp only [hex_encode, hex_decode, h1, h2, ih]
    congr 2
    apply Fin.ext
    have := b.isLt
    show (16 * (b.val / 16) + b.val % 16) % 256 = b.val
    omega

theorem hex_encode_get (bs : List Byte) (i : Nat) (b : Byte) (h : bs[i]? = some b) :
    (hex_encode bs)[2 * i]? = some (nibble_char (b.val / 16)) ∧
    (hex_encode bs)[2 * i + 1]? = some (nibble_char (b.val % 16)) := by
  induction bs generalizing i with
  | nil => simp at h
  | cons c cs ih =>
    cases i with
    | zero =>
      simp only [List.getElem?_cons_zero, Option.some.injEq] at h
      subst h
      simp [hex_encode]
    | succ j =>
      simp only [List.getElem?_cons_succ] at h
      have hj := ih j h
      have e1 : 2 * (j + 1) = (2 * j + 1) + 1 := by omega
      have e2 : 2 * (j + 1) + 1 = (2 * j + 1 + 1) + 1 := by omega
      constructor
      · rw [e1]
        simp only [hex_encode, List.getElem?_cons_succ]
        exact hj.1
      · rw [e2]
        simp only [hex_encode, List.getElem?_cons_succ]
        exact hj.2

theorem read_bytes_get (m : Mem) (p n i : Nat) (h : i < n) :
    (read_bytes m p n)[i]? = some (m (p + i)) := by
  simp [read_bytes, List.getElem?_range h]

/-! ## Lemmas on the loop of `bin_to_hex` -/

theorem bin_to_hex_loop_run (m : Mem) (src srclen : Nat) (hlen : srclen < 2 ^ 32) :
    ∀ (k i extra : Nat) (d : List Char), i + k = srclen →
      bin_to_hex_loop m src srclen (k + 1 + extra) i d =
        some ((List.range' i k).foldl (bin_to_hex_step m src) d ++ [NUL]) := by
  intro k
  induction k with
  | zero =>
    intro i extra d hi
    have hf : 0 + 1 + extra = extra + 1 := by omega
    have hnot : ¬ i < srclen := by omega
    rw [hf]
    simp only [bin_to_hex_loop, if_neg hnot]
    rfl
  | succ k ih =>
    intro i extra d hi
    have hf : k + 1 + 1 + extra = (k + 1 + extra) + 1 := by omega
    have hlt : i < srclen := by omega
    have hmod : (i + 1) % 2 ^ 32 = i + 1 := Nat.mod_eq_of_lt (by omega)
    rw [hf]
    simp only [bin_to_hex_loop, if_pos hlt, hmod]
    rw [ih (i + 1) extra _ (by omega), List.range'_succ]
    rfl

/-- With a length below `2 ^ 32` the loop of `bin_to_hex` is left after `srclen`
iterations, whatever fuel beyond that it is given. -/
theorem bin_to_hex_loop_enough (m : Mem) (src srclen fuel : Nat)
    (hlen : srclen < 2 ^ 32) (hfuel : srclen + 1 ≤ fuel) :
    bin_to_hex_loop m src srclen fuel 0 [] = some (bin_to_hex m src srclen) := by
  obtain ⟨extra, rfl⟩ : ∃ extra, fuel = srclen + 1 + extra := ⟨fuel - (srclen + 1), by omega⟩
  rw [bin_to_hex_loop_run m src srclen hlen srclen 0 extra [] (by omega)]
  unfold bin_to_hex
  rw [List.range_eq_range']

/-- With a length of `2 ^ 32` or more the 32-bit index never reaches the length. -/
theorem bin_to_hex_loop_wraps (m : Mem) (src srclen : Nat) (hlen : 2 ^ 32 ≤ srclen) :
    ∀ (fuel i : Nat) (d : List Char), i < 2 ^ 32 →
      bin_to_hex_loop m src srclen fuel i d = none := by
  intro fuel
  induction fuel with
  | zero => intro i d _; rfl
  | succ fuel ih =>
    intro i d hi
    have hlt : i < srclen := by omega
    simp only [bin_to_hex_loop, if_pos hlt]
    exact ih _ _ (Nat.mod_lt _ (by decide))

theorem takeWhile_until_nul (l rest : List Char) (h : ∀ c ∈ l, c ≠ NUL) :
    (l ++ NUL :: rest).takeWhile (fun c => decide (c ≠ NUL)) = l := by
  induction l with
  | nil => simp [List.takeWhile_cons]
  | cons c cs ih =>
    have hc : c ≠ NUL := h c (List.mem_cons_self _ _)
    have hcs : ∀ x ∈ cs, x ≠ NUL := fun x hx => h x (List.mem_cons_of_mem _ hx)
    have hd : decide (c ≠ NUL) = true := decide_eq_true hc
    rw [List.cons_append, List.takeWhile_cons, if_pos hd, ih hcs]

/-- What `%s` prints for a buffer that `bin_to_hex` has filled: the dump of the
source bytes. -/
theorem c_string_bin_to_hex (m : Mem) (p n len : Nat) :
    c_string (fill_buffer len (bin_to_hex m p n)) =
      String.mk (hex_encode (read_bytes m p n)) := by
  unfold c_string fill_buffer
  rw [bin_to_hex_eq, List.append_assoc, List.singleton_append,
    takeWhile_until_nul _ _ (hex_encode_ne_nul _)]

theorem clobber_line_eq (w : Nat) (m : Mem) (gr : guarded_record_t) :
    clobber_line w m gr =
      LogMsg.clobber gr.target gr.name
        (String.mk (hex_encode (read_bytes m gr.target GUARD_LEN)))
        (String.mk (hex_encode (read_bytes m
          (gr.target + GUARD_LEN + (gr.count * gr.size) % 2 ^ w) GUARD_LEN))) := by
  unfold clobber_line
  rw [c_string_bin_to_hex, c_string_bin_to_hex]

theorem report_eq (w : Nat) (m : Mem) (out : List LogMsg) (target size count : Nat)
    (name : String) :
    memguard_report_clobber w m out target size count name =
      out ++ [clobber_line w m ⟨target, size, count, name⟩] := rfl

/-! ## Lemmas on the reports of a sweep -/

theorem found_corrupted_cons (w : Nat) (m : Mem) (gr : guarded_record_t)
    (rs : List guarded_record_t) :
    found_corrupted w m (gr :: rs) =
      if corrupted w m gr then
        (gr, m) :: found_corrupted w (memguard_object_prep w m gr.target gr.size gr.count) rs
      else found_corrupted w m rs := rfl

theorem sweep_step_of_corrupted (w : Nat) (st : SweepState) (gr : guarded_record_t)
    (h : corrupted w st.mem gr = true) :
    sweep_step w st gr =
      { fails := st.fails + 1,
        mem := memguard_object_prep w st.mem gr.target gr.size gr.count,
        out := st.out ++ [clobber_line w st.mem gr] } := by
  unfold corrupted at h
  unfold sweep_step
  rw [if_pos h]
  rfl

theorem sweep_step_of_intact (w : Nat) (st : SweepState) (gr : guarded_record_t)
    (h : corrupted w st.mem gr = false) : sweep_step w st gr = st := by
  unfold corrupted at h
  unfold sweep_step
  rw [h]
  rfl

/-- The sweep in terms of the entries found corrupted when visited: one failure and
one clobber line for each of them, and a repaint of each of them. -/
theorem sweep_eq_found (w : Nat) (rs : List guarded_record_t) (st : SweepState) :
    sweep w st rs =
      { fails := st.fails + (found_corrupted w st.mem rs).length,
        mem := (found_corrupted w st.mem rs).foldl
          (fun m p => memguard_object_prep w m p.1.target p.1.size p.1.count) st.mem,
        out := st.out ++ (found_corrupted w st.mem rs).map (fun p => clobber_line w p.2 p.1) } := by
  induction rs generalizing st with
  | nil => simp [sweep, found_corrupted]
  | cons gr rs ih =>
    rw [sweep_cons, found_corrupted_cons]
    by_cases h : corrupted w st.mem gr = true
    · rw [if_pos h, ih, sweep_step_of_corrupted w st gr h]
      simp only [List.length_cons, List.foldl_cons, List.map_cons, List.append_assoc,
        List.singleton_append]
      congr 1
      omega
    · have h2 : corrupted w st.mem gr = false := by simpa using h
      rw [if_neg h, ih, sweep_step_of_intact w st gr h2]

theorem found_corrupted_spec (w : Nat) (rs : List guarded_record_t) (m : Mem) :
    ∀ p ∈ found_corrupted w m rs, p.1 ∈ rs ∧ corrupted w p.2 p.1 = true := by
  induction rs generalizing m with
  | nil => intro p hp; cases hp
  | cons gr rs ih =>
    intro p hp
    rw [found_corrupted_cons] at hp
    by_cases h : corrupted w m gr = true
    · rw [if_pos h] at hp
      rcases List.mem_cons.mp hp with e | hp
      · subst e
        exact ⟨List.mem_cons_self _ _, h⟩
      · exact ⟨List.mem_cons_of_mem _ (ih _ p hp).1, (ih _ p hp).2⟩
    · rw [if_neg h] at hp
      exact ⟨List.mem_cons_of_mem _ (ih _ p hp).1, (ih _ p hp).2⟩

/-- The entries found corrupted come in the order of the records. -/
theorem found_corrupted_sublist (w : Nat) (rs : List guarded_record_t) (m : Mem) :
    ((found_corrupted w m rs).map Prod.fst).Sublist rs := by
  induction rs generalizing m with
  | nil => exact List.Sublist.slnil
  | cons gr rs ih =>
    rw [found_corrupted_cons]
    by_cases h : corrupted w m gr = true
    · rw [if_pos h, List.map_cons]
      exact List.Sublist.cons₂ _ (ih _)
    · rw [if_neg h]
      exact List.Sublist.cons _ (ih _)

theorem found_corrupted_of_intact (w : Nat) (rs : List guarded_record_t) (m : Mem)
    (h : ∀ r ∈ rs, corrupted w m r = false) : found_corrupted w m rs = [] := by
  induction rs with
  | nil => rfl
  | cons gr rs ih =>
    have hgr : corrupted w m gr = false := h gr (List.mem_cons_self _ _)
    rw [found_corrupted_cons, hgr]
    exact ih (fun r hr => h r (List.mem_cons_of_mem _ hr))

/-- A byte outside the guard zones of the listed entries survives their repaints. -/
theorem foldl_prep_outside (w : Nat) (ps : List (guarded_record_t × Mem)) (m : Mem) (a : Nat)
    (h : ∀ p ∈ ps, ¬ in_guard w p.1.target p.1.size p.1.count a) :
    ps.foldl (fun m p => memguard_object_prep w m p.1.target p.1.size p.1.count) m a =
      m a := by
  induction ps generalizing m with
  | nil => rfl
  | cons p ps ih =>
    rw [List.foldl_cons, ih _ (fun q hq => h q (List.mem_cons_of_mem _ hq)), prep_apply,
      if_neg (h p (List.mem_cons_self _ _))]

/-- With a valid count the registered records are those of the slots
`0 .. count-1`, one for each slot and in slot order. -/
theorem registered_slots (ctx : memguard_context_t)
    (h : ctx.count ≤ MAX_GUARDED_OBJECTS) :
    (registered ctx).map some = (List.range ctx.count).map (record_at ctx) := by
  unfold registered
  have key : ∀ l : List Nat, (∀ i ∈ l, i < MAX_GUARDED_OBJECTS) →
      (l.filterMap (record_at ctx)).map some = l.map (record_at ctx) := by
    intro l
    induction l with
    | nil => intro _; rfl
    | cons i is ih =>
      intro hl
      have hi : i < MAX_GUARDED_OBJECTS := hl i (List.mem_cons_self _ _)
      rw [List.filterMap_cons, List.map_cons, record_at_of_lt ctx i hi]
      simp only [List.map_cons]
      rw [ih (fun j hj => hl j (List.mem_cons_of_mem _ hj))]
  apply key
  intro i hi
  have := List.mem_range.mp hi
  omega

theorem registered_length_le (ctx : memguard_context_t) :
    (registered ctx).length ≤ ctx.count := by
  unfold registered
  have := List.length_filterMap_le (record_at ctx) (List.range ctx.count)
  rw [List.length_range] at this
  exact this

theorem user_in_storage (w t s c a : Nat) (h : in_user w t s c a) :
    t ≤ a ∧ a < t + 2 * GUARD_LEN + (c * s) % 2 ^ w := by
  unfold in_user at h
  omega

theorem disjoint_storage_symm (w : Nat) : Symmetric (disjoint_storage w) := by
  intro a b h
  unfold disjoint_storage at h ⊢
  omega

/-- A sweep never turns an intact record into a corrupted one, so it counts at most
the records that were corrupted when it started. -/
theorem sweep_fails_le (w : Nat) (rs : List guarded_record_t) (st : SweepState) :
    (sweep w st rs).fails ≤ st.fails + rs.countP (corrupted w st.mem) := by
  induction rs generalizing st with
  | nil => exact Nat.le_refl _
  | cons gr rs ih =>
    have hmono : rs.countP (corrupted w (sweep_step w st gr).mem) ≤
        rs.countP (corrupted w st.mem) := by
      apply List.countP_mono_left
      intro r _ hr
      by_contra hne
      have h0 : corrupted w st.mem r = false := by simpa using hne
      rw [sweep_step_keeps_intact w st gr r h0] at hr
      cases hr
    have h1 := ih (sweep_step w st gr)
    rw [sweep_cons, List.countP_cons]
    rw [sweep_step_fails] at h1
    omega

/-! ## Lemmas on the sweep loop for any slot count -/

theorem sweep_step_ignores_out (w : Nat) (st1 st2 : SweepState) (gr : guarded_record_t)
    (hf : st1.fails = st2.fails) (hm : st1.mem = st2.mem) :
    (sweep_step w st1 gr).fails = (sweep_step w st2 gr).fails ∧
    (sweep_step w st1 gr).mem = (sweep_step w st2 gr).mem := by
  unfold sweep_step
  rw [hm]
  split_ifs
  · exact ⟨by rw [hf], rfl⟩
  · exact ⟨hf, hm⟩

/-- The failure count and the memory that the loop yields do not depend on the
lines printed before it. -/
theorem foldlM_ignores_out (w : Nat) (ctx : memguard_context_t) (l : List Nat)
    (st1 st2 : SweepState) (hf : st1.fails = st2.fails) (hm : st1.mem = st2.mem) :
    (l.foldlM (fun st i => (record_at ctx i).map (sweep_step w st)) st1).map
        (fun st => (st.fails, st.mem)) =
      (l.foldlM (fun st i => (record_at ctx i).map (sweep_step w st)) st2).map
        (fun st => (st.fails, st.mem)) := by
  induction l generalizing st1 st2 with
  | nil => simp [hf, hm]
  | cons i is ih =>
    rw [List.foldlM_cons, List.foldlM_cons]
    cases hrec : record_at ctx i with
    | none => rfl
    | some gr =>
      simp only [Option.map_some', Option.bind_eq_bind, Option.some_bind]
      exact ih _ _ (sweep_step_ignores_out w st1 st2 gr hf hm).1
        (sweep_step_ignores_out w st1 st2 gr hf hm).2

/-- Whenever the loop returns, a record that was intact before it is intact after. -/
theorem foldlM_keeps_intact (w : Nat) (ctx : memguard_context_t) (r : guarded_record_t)
    (l : List Nat) (st st1 : SweepState)
    (hrun : l.foldlM (fun st i => (record_at ctx i).map (sweep_step w st)) st = some st1)
    (h : corrupted w st.mem r = false) : corrupted w st1.mem r = false := by
  induction l generalizing st with
  | nil =>
    simp only [List.foldlM_nil, Option.pure_def, Option.some.injEq] at hrun
    rw [← hrun]; exact h
  | cons i is ih =>
    rw [List.foldlM_cons] at hrun
    cases hrec : record_at ctx i with
    | none => rw [hrec] at hrun; cases hrun
    | some gr =>
      rw [hrec] at hrun
      simp only [Option.map_some', Option.bind_eq_bind, Option.some_bind] at hrun
      exact ih _ hrun (sweep_step_keeps_intact w st gr r h)

/-! ## Lemmas on corrupted guard bytes -/

theorem hex_encode_injective (l1 l2 : List Byte) (h : hex_encode l1 = hex_encode l2) :
    l1 = l2 := by
  have h1 := hex_decode_encode l1
  rw [h, hex_decode_encode] at h1
  exact (Option.some.inj h1).symm

theorem read_bytes_eq_replicate (m : Mem) (p n : Nat) (v : Byte)
    (h : read_bytes m p n = List.replicate n v) : ∀ i, i < n → m (p + i) = v := by
  intro i hi
  have h1 := read_bytes_get m p n i hi
  rw [h, List.getElem?_replicate, if_pos hi] at h1
  exact (Option.some.inj h1).symm

theorem replicate_of_forall (m : Mem) (p n : Nat) (v : Byte)
    (h : ∀ i, i < n → m (p + i) = v) : read_bytes m p n = List.replicate n v := by
  apply List.ext_getElem?
  intro i
  by_cases hi : i < n
  · rw [read_bytes_get m p n i hi, List.getElem?_replicate, if_pos hi, h i hi]
  · rw [List.getElem?_eq_none (by rw [read_bytes_length]; omega),
      List.getElem?_eq_none (by rw [List.length_replicate]; omega)]

/-- A corrupted region has a byte other than the sentinel among the bytes that the
report dumps. -/
theorem corrupted_dump (w : Nat) (m : Mem) (target size count : Nat)
    (h : memguard_object_check w m target size count = true) :
    read_bytes m target GUARD_LEN ≠ List.replicate GUARD_LEN GUARD_SENTINEL ∨
    read_bytes m (target + GUARD_LEN + (count * size) % 2 ^ w) GUARD_LEN ≠
      List.replicate GUARD_LEN GUARD_SENTINEL := by
  by_contra hcon
  push_neg at hcon
  have hf := read_bytes_eq_replicate m _ _ _ hcon.1
  have hb := read_bytes_eq_replicate m _ _ _ hcon.2
  rw [check_true_iff] at h
  obtain ⟨a, ha, hne⟩ := h
  unfold in_guard in_front in_back at ha
  rcases ha with ha | ha
  · have := hf (a - target) (by omega)
    rw [show target + (a - target) = a by omega] at this
    exact hne this
  · have := hb (a - (target + GUARD_LEN + (count * size) % 2 ^ w)) (by omega)
    rw [show target + GUARD_LEN + (count * size) % 2 ^ w +
      (a - (target + GUARD_LEN + (count * size) % 2 ^ w)) = a by omega] at this
    exact hne this

/-- After a repaint the bytes that a report would dump are all the sentinel. -/
theorem prep_dump (w : Nat) (m : Mem) (target size count : Nat) :
    read_bytes (memguard_object_prep w m target size count) target GUARD_LEN =
      List.replicate GUARD_LEN GUARD_SENTINEL ∧
    read_bytes (memguard_object_prep w m target size count)
        (target + GUARD_LEN + (count * size) % 2 ^ w) GUARD_LEN =
      List.replicate GUARD_LEN GUARD_SENTINEL := by
  constructor
  · apply replicate_of_forall
    intro i hi
    have hg : in_guard w target size count (target + i) := by
      unfold in_guard in_front; left; omega
    rw [prep_apply, if_pos hg]
  · apply replicate_of_forall
    intro i hi
    have hg : in_guard w target size count
        (target + GUARD_LEN + (count * size) % 2 ^ w + i) := by
      unfold in_guard in_back; right; omega
    rw [prep_apply, if_pos hg]

theorem sentinel_dump :
    hex_encode (List.replicate GUARD_LEN GUARD_SENTINEL) =
      String.toList "77777777777777777777777777777777" := by
  decide

/-! ## Lemmas on sequences of calls -/

theorem run_append (w : Nat) (ops1 ops2 : List Op) (s : State) :
    run w s (ops1 ++ ops2) = (run w s ops1).bind (fun s1 => run w s1 ops2) := by
  induction ops1 generalizing s with
  | nil => rfl
  | cons op ops ih =>
    show run w s (op :: (ops ++ ops2)) = _
    simp only [run]
    cases step w s op with
    | none => rfl
    | some s1 => simp only [Option.some_bind, ih]

/-- Every call keeps the count within the array and keeps the registered records as
a prefix of the new ones. -/
theorem step_ok (w : Nat) (s : State) (op : Op)
    (h : s.memguard_context.count ≤ MAX_GUARDED_OBJECTS) :
    ∃ s1, step w s op = some s1 ∧
      s1.memguard_context.count ≤ MAX_GUARDED_OBJECTS ∧
      registered s.memguard_context <+: registered s1.memguard_context := by
  cases op with
  | register target size count name =>
    refine ⟨_, rfl, ?_, ?_⟩
    · by_cases hfree : s.memguard_context.count < MAX_GUARDED_OBJECTS
      · rw [register_free w s target size count name hfree]
        exact hfree
      · rw [register_full w s target size count name hfree]
        exact h
    · by_cases hfree : s.memguard_context.count < MAX_GUARDED_OBJECTS
      · rw [register_free_registered w s target size count name hfree]
        exact List.prefix_append _ _
      · rw [register_full w s target size count name hfree]
  | prep target size count =>
    exact ⟨_, rfl, h, List.prefix_refl _⟩
  | check =>
    have e : step w s Op.check = some
        { s with
          mem := (sweep w ⟨0, s.mem, s.out⟩ (registered s.memguard_context)).mem,
          out := (sweep w ⟨0, s.mem, s.out⟩ (registered s.memguard_context)).out } := by
      simp only [step, memguard_check_eq w s h, Option.map_some']
    refine ⟨_, e, ?_, ?_⟩
    · exact h
    · exact List.prefix_refl _
  | local_check target size count name =>
    refine ⟨_, rfl, ?_, ?_⟩
    · unfold memguard_local_object_check
      split_ifs <;> exact h
    · unfold memguard_local_object_check
      split_ifs <;> exact List.prefix_refl _

theorem run_ok (w : Nat) (ops : List Op) (s : State)
    (h : s.memguard_context.count ≤ MAX_GUARDED_OBJECTS) :
    ∃ s1, run w s ops = some s1 ∧
      s1.memguard_context.count ≤ MAX_GUARDED_OBJECTS ∧
      registered s.memguard_context <+: registered s1.memguard_context := by
  induction ops generalizing s with
  | nil => exact ⟨s, rfl, h, List.prefix_refl _⟩
  | cons op ops ih =>
    obtain ⟨s1, h1, hc1, hp1⟩ := step_ok w s op h
    obtain ⟨s2, h2, hc2, hp2⟩ := ih s1 hc1
    refine ⟨s2, ?_, hc2, hp1.trans hp2⟩
    simp only [run, h1, Option.some_bind, h2]

theorem registered_length (ctx : memguard_context_t)
    (h : ctx.count ≤ MAX_GUARDED_OBJECTS) : (registered ctx).length = ctx.count := by
  have := congrArg List.length (registered_slots ctx h)
  simpa using this

/-! ## Lemmas on whole sweeps -/

/-- The sweep of a state with a valid count, in terms of the entries found corrupted
when visited. -/
theorem memguard_check_found (w : Nat) (s : State)
    (h : s.memguard_context.count ≤ MAX_GUARDED_OBJECTS) :
    memguard_check w s =
      some ((found_corrupted w s.mem (registered s.memguard_context)).length,
        { s with
          mem := (found_corrupted w s.mem (registered s.memguard_context)).foldl
            (fun m p => memguard_object_prep w m p.1.target p.1.size p.1.count) s.mem,
          out := s.out ++ (found_corrupted w s.mem (registered s.memguard_context)).map
            (fun p => clobber_line w p.2 p.1) }) := by
  rw [memguard_check_eq w s h, sweep_eq_found]
  simp only [Nat.zero_add]

theorem memguard_check_ignores_out (w : Nat) (s : State) (out1 : List LogMsg) :
    (memguard_check w { s with out := out1 }).map
        (fun r => (r.1, r.2.mem, r.2.memguard_context)) =
      (memguard_check w s).map (fun r => (r.1, r.2.mem, r.2.memguard_context)) := by
  unfold memguard_check memguard_check_loop
  rw [Option.map_map, Option.map_map]
  have key := foldlM_ignores_out w s.memguard_context (List.range s.memguard_context.count)
    ⟨0, s.mem, out1⟩ ⟨0, s.mem, s.out⟩ rfl rfl
  have := congrArg (Option.map (fun p : Nat × Mem => (p.1, p.2, s.memguard_context))) key
  rw [Option.map_map, Option.map_map] at this
  exact this

theorem local_check_state (w : Nat) (s : State) (target size count : Nat) (name : String) :
    (memguard_local_object_check w s target size count name).2 =
      { s with out := (memguard_local_object_check w s target size count name).2.out } := by
  unfold memguard_local_object_check
  split_ifs <;> rfl

theorem local_check_fst (w : Nat) (s : State) (target size count : Nat) (name : String) :
    (memguard_local_object_check w s target size count name).1 =
      memguard_object_check w s.mem target size count := by
  unfold memguard_local_object_check
  split_ifs with h
  · exact h.symm
  · simpa using h

/-! ## Lemmas on the text of a report -/

theorem dump_ne_sentinel (bs : List Byte)
    (h : bs ≠ List.replicate GUARD_LEN GUARD_SENTINEL) :
    String.mk (hex_encode bs) ≠ "77777777777777777777777777777777" := by
  intro e
  have e1 : hex_encode bs = String.toList "77777777777777777777777777777777" :=
    congrArg String.data e
  rw [← sentinel_dump] at e1
  exact h (hex_encode_injective _ _ e1)

theorem bin_to_hex_take (m : Mem) (src n : Nat) :
    (bin_to_hex m src n).take (2 * n) = hex_encode (read_bytes m src n) := by
  rw [bin_to_hex_eq]
  exact List.take_left' (by rw [hex_encode_length, read_bytes_length])

theorem bin_to_hex_drop (m : Mem) (src n : Nat) :
    (bin_to_hex m src n).drop (2 * n) = [NUL] := by
  rw [bin_to_hex_eq]
  exact List.drop_left' (by rw [hex_encode_length, read_bytes_length])

theorem bin_to_hex_length (m : Mem) (src n : Nat) :
    (bin_to_hex m src n).length = 2 * n + 1 := by
  rw [bin_to_hex_eq, List.length_append, hex_encode_length, read_bytes_length]
  rfl

theorem bin_to_hex_get (m : Mem) (src n i : Nat) (hi : i < n) :
    (bin_to_hex m src n)[2 * i]? = some (nibble_char ((m (src + i)).val / 16)) ∧
    (bin_to_hex m src n)[2 * i + 1]? = some (nibble_char ((m (src + i)).val % 16)) := by
  have hg := hex_encode_get (read_bytes m src n) i (m (src + i)) (read_bytes_get m src n i hi)
  have hlen : (hex_encode (read_bytes m src n)).length = 2 * n := by
    rw [hex_encode_length, read_bytes_length]
  rw [bin_to_hex_eq, List.getElem?_append_left (by omega),
    List.getElem?_append_left (by omega)]
  exact hg

/-! ## The scenarios of the demonstration program -/

set_option maxRecDepth 100000 in
/-- Scenario A: `bob` written only inside its 128-byte user area; the sweep returns 0. -/
theorem scenario_A_user_area_only :
    (memguard_check 64
      { demo_sue with
        mem := apply_writes demo_sue.mem
          ((List.range 128).map (fun i => (1000 + 16 + i, 0x99))) }).map Prod.fst =
      some 0 := by
  decide

/-- Scenario B: the clobber line names `bob` and shows the overwritten byte. -/
theorem scenario_B_report :
    (memguard_check 64 demo_clobbered).map (fun r => r.2.out.drop 2) =
      some [LogMsg.clobber 1000 "bob" "77777777777777777777777777777777"
        "ab777777777777777777777777777777"] := by
  decide

/-- Scenario C: after the stores to indices 0..1023 the check returns false, and
after one more store of a nonzero byte one element past the end it returns true. -/
theorem scenario_C_one_past_end :
    memguard_object_check 64
      (apply_writes (memguard_object_prep 64 (fun _ => 0) 0 4 1024)
        [(16, 1), (16 + 4095, 3)]) 0 4 1024 = false ∧
    memguard_object_check 64
      (apply_writes (memguard_object_prep 64 (fun _ => 0) 0 4 1024)
        [(16, 1), (16 + 4095, 3), (16 + 4097, 4)]) 0 4 1024 = true := by
  decide

/-! ## The claims -/

/-- C1: for every memory, base address, element size and element count,
`memguard_object_check` returns true if and only if some byte of the front zone
`[target, target+16)` or of the back zone, the 16 bytes from
`target + 16 + (count * size)` on, differs from the sentinel `0x77`; the product is
the `size_t` one, which is `size * count` whenever that fits in `w` bits; and
`memguard_local_object_check` returns the value of `memguard_object_check`. -/
theorem C1_check_iff_guard_byte_differs (w : Nat) (s : State)
    (target size count : Nat) (name : String) :
    (memguard_object_check w s.mem target size count = true ↔
      ∃ a, ((target ≤ a ∧ a < target + 16) ∨
            (target + 16 + (count * size) % 2 ^ w ≤ a ∧
              a < target + 32 + (count * size) % 2 ^ w)) ∧
           s.mem a ≠ 0x77) ∧
    (size * count < 2 ^ w →
      (memguard_object_check w s.mem target size count = true ↔
        ∃ a, ((target ≤ a ∧ a < target + 16) ∨
              (target + 16 + size * count ≤ a ∧ a < target + 32 + size * count)) ∧
             s.mem a ≠ 0x77)) ∧
    (memguard_local_object_check w s target size count name).1 =
      memguard_object_check w s.mem target size count := by
  have key : memguard_object_check w s.mem target size count = true ↔
      ∃ a, ((target ≤ a ∧ a < target + 16) ∨
            (target + 16 + (count * size) % 2 ^ w ≤ a ∧
              a < target + 32 + (count * size) % 2 ^ w)) ∧
           s.mem a ≠ 0x77 := by
    rw [check_true_iff]
    simp only [in_guard, in_front, in_back, GUARD_LEN, GUARD_SENTINEL]
  refine ⟨key, ?_, ?_⟩
  · intro h
    rw [key, span_of_lt w size count h]
  · unfold memguard_local_object_check
    split_ifs with h
    · exact h.symm
    · simpa using h

/-- C2 (as amended): after a region is painted and any stores are made, a store of a
byte other than the sentinel at any address of either guard zone makes the check
return true. -/
theorem C2_guard_write_detected (w : Nat) (m : Mem) (target size count : Nat)
    (ws : List (Nat × Byte)) (a : Nat) (v : Byte)
    (ha : in_guard w target size count a) (hv : v ≠ GUARD_SENTINEL) :
    memguard_object_check w
      ((apply_writes (memguard_object_prep w m target size count) ws).write a v)
      target size count = true := by
  rw [check_true_iff]
  exact ⟨a, ha, by rw [write_apply, if_pos rfl]; exact hv⟩

/-- C2 witness: the store of Scenario C, one element past a 1024-element 4-byte
buffer, with the byte `0x00`. -/
theorem C2_guard_write_detected_witness :
    memguard_object_check 32
      ((apply_writes (memguard_object_prep 32 (fun _ => 0) 0 4 1024) []).write
        (0 + 16 + 4096) 0x00) 0 4 1024 = true :=
  C2_guard_write_detected 32 (fun _ => 0) 0 4 1024 [] (0 + 16 + 4096) 0x00
    (by decide) (by decide)

/-- C2 counterexample: on a painted region a store of the byte `0x77` at the first
address of the back guard zone is a store inside a padding zone, yet the next check
returns false. -/
theorem C2_counterexample :
    in_guard 32 0 4 1024 (0 + 16 + 4096) ∧
    memguard_object_check 32
      ((memguard_object_prep 32 (fun _ => 0) 0 4 1024).write (0 + 16 + 4096) 0x77)
      0 4 1024 = false := by
  decide

/-- C3: when `size * count` fits in `w` bits, after `memguard_object_prep` and any
sequence of byte stores confined to the user-visible span
`[target + 16, target + 16 + size * count)` the check returns false. -/
theorem C3_in_bounds_writes_pass (w : Nat) (m : Mem) (target size count : Nat)
    (ws : List (Nat × Byte)) (hfit : size * count < 2 ^ w)
    (hws : ∀ p ∈ ws, target + GUARD_LEN ≤ p.1 ∧ p.1 < target + GUARD_LEN + size * count) :
    memguard_object_check w
      (apply_writes (memguard_object_prep w m target size count) ws)
      target size count = false := by
  have hout : ∀ p ∈ ws, ¬ in_guard w target size count p.1 := by
    intro p hp
    apply user_not_guard
    unfold in_user
    rw [span_of_lt w size count hfit]
    exact hws p hp
  rw [check_congr w _ (memguard_object_prep w m target size count) target size count
    (fun a ha => apply_writes_outside w target size count ws hout _ a ha)]
  exact check_prep w m target size count

/-- C3 witness: a 3-element 2-byte region at address 100 with stores to its first
and last user bytes. -/
theorem C3_in_bounds_writes_pass_witness :
    memguard_object_check 32
      (apply_writes (memguard_object_prep 32 (fun _ => 0) 100 2 3) [(116, 1), (121, 2)])
      100 2 3 = false :=
  C3_in_bounds_writes_pass 32 (fun _ => 0) 100 2 3 [(116, 1), (121, 2)]
    (by decide) (by decide)

/-- C4: after `memguard_object_prep` every byte of the front zone and of the back
zone equals the sentinel, every byte outside the two zones is unchanged, and the
user-visible span lies outside the two zones. -/
theorem C4_prep_paints_only_guard_zones (w : Nat) (m : Mem)
    (target size count a : Nat) :
    (in_front target a →
      memguard_object_prep w m target size count a = GUARD_SENTINEL) ∧
    (in_back w target size count a →
      memguard_object_prep w m target size count a = GUARD_SENTINEL) ∧
    (¬ in_front target a → ¬ in_back w target size count a →
      memguard_object_prep w m target size count a = m a) ∧
    (in_user w target size count a →
      memguard_object_prep w m target size count a = m a) := by
  refine ⟨fun h => ?_, fun h => ?_, fun h1 h2 => ?_, fun h => ?_⟩
  · have hg : in_guard w target size count a := Or.inl h
    rw [prep_apply, if_pos hg]
  · have hg : in_guard w target size count a := Or.inr h
    rw [prep_apply, if_pos hg]
  · have hg : ¬ in_guard w target size count a := fun h => h.elim h1 h2
    rw [prep_apply, if_neg hg]
  · rw [prep_apply, if_neg (user_not_guard w target size count a h)]

/-- C5: for every registry state with a valid slot count and every memory, duplicate
or overlapping entries included, a `memguard_check` sweep completes, and a second
sweep right after it returns 0, prints nothing and leaves the state as it is. -/
theorem C5_second_sweep_reports_nothing (w : Nat) (s : State)
    (h : s.memguard_context.count ≤ MAX_GUARDED_OBJECTS) :
    ∃ n s1, memguard_check w s = some (n, s1) ∧ memguard_check w s1 = some (0, s1) := by
  refine ⟨_, _, memguard_check_eq w s h, ?_⟩
  have h2 := memguard_check_eq w
    { s with
      mem := (sweep w ⟨0, s.mem, s.out⟩ (registered s.memguard_context)).mem,
      out := (sweep w ⟨0, s.mem, s.out⟩ (registered s.memguard_context)).out } h
  have hst : sweep w
      ⟨0, (sweep w ⟨0, s.mem, s.out⟩ (registered s.memguard_context)).mem,
        (sweep w ⟨0, s.mem, s.out⟩ (registered s.memguard_context)).out⟩
      (registered s.memguard_context) =
      ⟨0, (sweep w ⟨0, s.mem, s.out⟩ (registered s.memguard_context)).mem,
        (sweep w ⟨0, s.mem, s.out⟩ (registered s.memguard_context)).out⟩ :=
    sweep_of_intact w _ _ (sweep_all_intact w _ _)
  simp only [hst] at h2
  exact h2

/-- C5 witness: the registry that holds the same region twice, clobbered. -/
theorem C5_second_sweep_reports_nothing_witness :
    ∃ n s1, memguard_check 64 demo_twice = some (n, s1) ∧
      memguard_check 64 s1 = some (0, s1) :=
  C5_second_sweep_reports_nothing 64 demo_twice (by decide)

/-- C6: for every registry with a valid slot count whose entries have pairwise
disjoint storage ranges, `memguard_check` returns the number of registered entries
that are corrupted in the memory at the start of the sweep, where an entry is
corrupted exactly when some byte of its two guard zones differs from `0x77`. -/
theorem C6_sweep_counts_corrupted (w : Nat) (s : State)
    (h : s.memguard_context.count ≤ MAX_GUARDED_OBJECTS)
    (hd : (registered s.memguard_context).Pairwise (disjoint_storage w)) :
    (memguard_check w s).map Prod.fst =
      some ((registered s.memguard_context).countP (corrupted w s.mem)) ∧
    ∀ gr : guarded_record_t, corrupted w s.mem gr = true ↔
      ∃ a, in_guard w gr.target gr.size gr.count a ∧ s.mem a ≠ 0x77 := by
  constructor
  · rw [memguard_check_eq w s h, Option.map_some', sweep_fails_disjoint w _ _ hd]
    simp
  · intro gr
    exact check_true_iff w s.mem gr.target gr.size gr.count

/-- C6 witness: Scenario B, `bob` and `sue` registered and one byte of the back
guard zone of `bob` overwritten; the sweep returns 1. -/
theorem C6_sweep_counts_corrupted_witness :
    (memguard_check 64 demo_clobbered).map Prod.fst = some 1 :=
  (C6_sweep_counts_corrupted 64 demo_clobbered (by decide) (by decide)).1.trans
    (by decide)

/-- C7: with fewer than `MAX_GUARDED_OBJECTS` entries, `memguard_object_register`
returns true, the count grows by one, the registered records are the old ones
followed by the new descriptor, every other slot keeps its record, the memory is the
old one with the region painted, and a check of the region returns false. -/
theorem C7_register_appends_and_paints (w : Nat) (s : State)
    (target size count : Nat) (name : String)
    (h : s.memguard_context.count < MAX_GUARDED_OBJECTS) :
    (memguard_object_register w s target size count name).1 = true ∧
    (memguard_object_register w s target size count name).2.memguard_context.count =
      s.memguard_context.count + 1 ∧
    registered (memguard_object_register w s target size count name).2.memguard_context =
      registered s.memguard_context ++ [⟨target, size, count, name⟩] ∧
    (∀ j : Fin MAX_GUARDED_OBJECTS, j.val ≠ s.memguard_context.count →
      (memguard_object_register w s target size count name).2.memguard_context.records j =
        s.memguard_context.records j) ∧
    (memguard_object_register w s target size count name).2.mem =
      memguard_object_prep w s.mem target size count ∧
    memguard_object_check w (memguard_object_register w s target size count name).2.mem
      target size count = false := by
  refine ⟨?_, ?_, register_free_registered w s target size count name h, ?_, ?_, ?_⟩
  · rw [register_free w s target size count name h]
  · rw [register_free w s target size count name h]
  · intro j hj
    rw [register_free w s target size count name h]
    have hne : j ≠ (⟨s.memguard_context.count, h⟩ : Fin MAX_GUARDED_OBJECTS) :=
      fun e => hj (congrArg Fin.val e)
    simp only [if_neg hne]
  · rw [register_free w s target size count name h]
  · rw [register_free w s target size count name h]
    exact check_prep w s.mem target size count

/-- C7 witness: the registration of `sue` after `bob` in the demonstration. -/
theorem C7_register_appends_and_paints_witness :
    (memguard_object_register 64 demo_bob 2000 8 512 "sue").1 = true ∧
    (memguard_object_register 64 demo_bob 2000 8 512 "sue").2.memguard_context.count =
      demo_bob.memguard_context.count + 1 ∧
    registered (memguard_object_register 64 demo_bob 2000 8 512 "sue").2.memguard_context =
      registered demo_bob.memguard_context ++ [⟨2000, 8, 512, "sue"⟩] ∧
    (∀ j : Fin MAX_GUARDED_OBJECTS, j.val ≠ demo_bob.memguard_context.count →
      (memguard_object_register 64 demo_bob 2000 8 512 "sue").2.memguard_context.records j =
        demo_bob.memguard_context.records j) ∧
    (memguard_object_register 64 demo_bob 2000 8 512 "sue").2.mem =
      memguard_object_prep 64 demo_bob.mem 2000 8 512 ∧
    memguard_object_check 64 (memguard_object_register 64 demo_bob 2000 8 512 "sue").2.mem
      2000 8 512 = false :=
  C7_register_appends_and_paints 64 demo_bob 2000 8 512 "sue" (by decide)

/-- C8: with exactly `MAX_GUARDED_OBJECTS` entries, `memguard_object_register`
returns false and leaves the context (records and count) and the memory unchanged;
its only effect is the warning line. -/
theorem C8_register_full_rejected (w : Nat) (s : State)
    (target size count : Nat) (name : String)
    (h : s.memguard_context.count = MAX_GUARDED_OBJECTS) :
    (memguard_object_register w s target size count name).1 = false ∧
    (memguard_object_register w s target size count name).2.memguard_context =
      s.memguard_context ∧
    (memguard_object_register w s target size count name).2.mem = s.mem ∧
    (memguard_object_register w s target size count name).2.out =
      s.out ++ [LogMsg.out_of_slots] := by
  have hfull : ¬ s.memguard_context.count < MAX_GUARDED_OBJECTS := by omega
  rw [register_full w s target size count name hfull]
  exact ⟨rfl, rfl, rfl, rfl⟩

set_option maxRecDepth 100000 in
/-- C8 witness: one more registration after `MAX_GUARDED_OBJECTS` of them. -/
theorem C8_register_full_rejected_witness :
    (memguard_object_register 64 demo_full 5000 1 1 "late").1 = false ∧
    (memguard_object_register 64 demo_full 5000 1 1 "late").2.memguard_context =
      demo_full.memguard_context ∧
    (memguard_object_register 64 demo_full 5000 1 1 "late").2.mem = demo_full.mem ∧
    (memguard_object_register 64 demo_full 5000 1 1 "late").2.out =
      demo_full.out ++ [LogMsg.out_of_slots] :=
  C8_register_full_rejected 64 demo_full 5000 1 1 "late" (by decide)

/-- C9: from `memguard_init`, in every run of `MAX_GUARDED_OBJECTS + 1` calls of
`memguard_object_register` the first `MAX_GUARDED_OBJECTS` return true and the last
returns false; the count is `MAX_GUARDED_OBJECTS` before and after the last call,
which leaves the context as it was; the registered records are those of the first
`MAX_GUARDED_OBJECTS` calls, in order; and a following `memguard_check` completes
and runs its loop body over exactly these records. -/
theorem C9_capacity_boundary (w : Nat) (s0 : State)
    (calls : List (Nat × Nat × Nat × String))
    (hlen : calls.length = MAX_GUARDED_OBJECTS + 1) :
    (register_all w (memguard_init s0) calls).1 =
      List.replicate MAX_GUARDED_OBJECTS true ++ [false] ∧
    (register_all w (memguard_init s0)
      (calls.take MAX_GUARDED_OBJECTS)).2.memguard_context.count = MAX_GUARDED_OBJECTS ∧
    (register_all w (memguard_init s0) calls).2.memguard_context =
      (register_all w (memguard_init s0)
        (calls.take MAX_GUARDED_OBJECTS)).2.memguard_context ∧
    (register_all w (memguard_init s0) calls).2.memguard_context.count =
      MAX_GUARDED_OBJECTS ∧
    registered (register_all w (memguard_init s0) calls).2.memguard_context =
      (calls.take MAX_GUARDED_OBJECTS).map to_record ∧
    ((calls.take MAX_GUARDED_OBJECTS).map to_record).length = MAX_GUARDED_OBJECTS ∧
    memguard_check w (register_all w (memguard_init s0) calls).2 =
      some ((sweep w ⟨0, (register_all w (memguard_init s0) calls).2.mem,
                (register_all w (memguard_init s0) calls).2.out⟩
              ((calls.take MAX_GUARDED_OBJECTS).map to_record)).fails,
        { (register_all w (memguard_init s0) calls).2 with
          mem := (sweep w ⟨0, (register_all w (memguard_init s0) calls).2.mem,
                    (register_all w (memguard_init s0) calls).2.out⟩
                  ((calls.take MAX_GUARDED_OBJECTS).map to_record)).mem,
          out := (sweep w ⟨0, (register_all w (memguard_init s0) calls).2.mem,
                    (register_all w (memguard_init s0) calls).2.out⟩
                  ((calls.take MAX_GUARDED_OBJECTS).map to_record)).out }) := by
  have htake : (calls.take MAX_GUARDED_OBJECTS).length = MAX_GUARDED_OBJECTS := by
    rw [List.length_take, hlen]; simp
  obtain ⟨c, hdrop⟩ : ∃ c, calls.drop MAX_GUARDED_OBJECTS = [c] := by
    have hl : (calls.drop MAX_GUARDED_OBJECTS).length = 1 := by
      rw [List.length_drop, hlen]; simp
    match hc : calls.drop MAX_GUARDED_OBJECTS, hl with
    | [c], _ => exact ⟨c, rfl⟩
  have hsplit : calls = calls.take MAX_GUARDED_OBJECTS ++ [c] := by
    rw [← hdrop, List.take_append_drop]
  have hinit : (memguard_init s0).memguard_context.count = 0 := rfl
  obtain ⟨h1, h2, h3⟩ := register_all_free w (calls.take MAX_GUARDED_OBJECTS)
    (memguard_init s0) (by rw [hinit, htake]; omega)
  rw [htake] at h1
  rw [hinit, htake, Nat.zero_add] at h2
  rw [registered_of_count_zero _ hinit, List.nil_append] at h3
  obtain ⟨target, size, count, name⟩ := c
  have hfull : ¬ (register_all w (memguard_init s0)
      (calls.take MAX_GUARDED_OBJECTS)).2.memguard_context.count < MAX_GUARDED_OBJECTS := by
    rw [h2]; omega
  have hlast : register_all w (register_all w (memguard_init s0)
      (calls.take MAX_GUARDED_OBJECTS)).2 [(target, size, count, name)] =
      ([false], { (register_all w (memguard_init s0) (calls.take MAX_GUARDED_OBJECTS)).2 with
        out := (register_all w (memguard_init s0) (calls.take MAX_GUARDED_OBJECTS)).2.out ++
          [LogMsg.out_of_slots] }) := by
    simp only [register_all, register_full w _ target size count name hfull]
  have hall : register_all w (memguard_init s0) calls =
      (List.replicate MAX_GUARDED_OBJECTS true ++ [false],
        { (register_all w (memguard_init s0) (calls.take MAX_GUARDED_OBJECTS)).2 with
          out := (register_all w (memguard_init s0) (calls.take MAX_GUARDED_OBJECTS)).2.out ++
            [LogMsg.out_of_slots] }) := by
    conv_lhs => rw [hsplit]
    rw [register_all_append, hlast, h1]
  have hctx : (register_all w (memguard_init s0) calls).2.memguard_context =
      (register_all w (memguard_init s0)
        (calls.take MAX_GUARDED_OBJECTS)).2.memguard_context := by
    rw [hall]
  have hcount : (register_all w (memguard_init s0) calls).2.memguard_context.count =
      MAX_GUARDED_OBJECTS := by
    rw [hctx, h2]
  have hreg : registered (register_all w (memguard_init s0) calls).2.memguard_context =
      (calls.take MAX_GUARDED_OBJECTS).map to_record := by
    rw [hctx, h3]
  refine ⟨by rw [hall], h2, hctx, hcount, hreg, by rw [List.length_map, htake], ?_⟩
  rw [memguard_check_eq w _ (by rw [hcount]), hreg]

/-- C9 witness: 31 registration calls with distinct labels. -/
theorem C9_capacity_boundary_witness :
    (register_all 64 (memguard_init demo_clobbered)
      (demo_calls (MAX_GUARDED_OBJECTS + 1))).1 =
      List.replicate MAX_GUARDED_OBJECTS true ++ [false] ∧
    (register_all 64 (memguard_init demo_clobbered)
      (demo_calls (MAX_GUARDED_OBJECTS + 1))).2.memguard_context.count =
      MAX_GUARDED_OBJECTS :=
  have h := C9_capacity_boundary 64 demo_clobbered (demo_calls (MAX_GUARDED_OBJECTS + 1))
    (by decide)
  ⟨h.1, h.2.2.2.1⟩

/-- C10: painting twice in a row gives the same memory as painting once, and the
check returns false after the first paint and after the second. -/
theorem C10_prep_idempotent (w : Nat) (m : Mem) (target size count : Nat) :
    memguard_object_prep w (memguard_object_prep w m target size count)
        target size count = memguard_object_prep w m target size count ∧
    memguard_object_check w (memguard_object_prep w m target size count)
        target size count = false ∧
    memguard_object_check w
        (memguard_object_prep w (memguard_object_prep w m target size count)
          target size count) target size count = false := by
  refine ⟨?_, check_prep w m target size count, check_prep w _ target size count⟩
  funext a
  rw [prep_apply, prep_apply]
  split_ifs <;> rfl

/-- C11: `memguard_local_object_check` leaves the memory and the context as they
are, so a second call on the same region returns the same value, and a later
`memguard_check` returns the same count and leaves the same memory and context as
it would without the call; with a valid count both sweeps complete and print the
same lines. -/
theorem C11_local_check_changes_nothing (w : Nat) (s : State)
    (target size count : Nat) (name : String) :
    (memguard_local_object_check w s target size count name).2.mem = s.mem ∧
    (memguard_local_object_check w s target size count name).2.memguard_context =
      s.memguard_context ∧
    (memguard_local_object_check w
        (memguard_local_object_check w s target size count name).2
        target size count name).1 =
      (memguard_local_object_check w s target size count name).1 ∧
    (memguard_check w (memguard_local_object_check w s target size count name).2).map
        (fun r => (r.1, r.2.mem, r.2.memguard_context)) =
      (memguard_check w s).map (fun r => (r.1, r.2.mem, r.2.memguard_context)) ∧
    (s.memguard_context.count ≤ MAX_GUARDED_OBJECTS →
      ∃ n m1 lines,
        memguard_check w s = some (n, { s with mem := m1, out := s.out ++ lines }) ∧
        memguard_check w (memguard_local_object_check w s target size count name).2 =
          some (n, { s with
            mem := m1,
            out := (memguard_local_object_check w s target size count name).2.out ++
              lines })) := by
  have hst := local_check_state w s target size count name
  have hmem : (memguard_local_object_check w s target size count name).2.mem = s.mem := by
    rw [hst]
  have hctx : (memguard_local_object_check w s target size count name).2.memguard_context =
      s.memguard_context := by
    rw [hst]
  refine ⟨hmem, hctx, ?_, ?_, ?_⟩
  · rw [local_check_fst, local_check_fst, hmem]
  · rw [hst]
    exact memguard_check_ignores_out w s _
  · intro h
    refine ⟨_, _, _, memguard_check_found w s h, ?_⟩
    rw [hst]
    exact memguard_check_found w { s with
      out := (memguard_local_object_check w s target size count name).2.out } h

/-- C12: with a valid count `memguard_check` goes through the records of the slots
`0 .. count-1`, one visit per slot in slot order; the lines it prints are the
clobber lines of the entries found corrupted when visited, in that order, each
built from the memory at the time of the visit; and the returned count is the
number of those lines. -/
theorem C12_sweep_visits_in_order (w : Nat) (s : State)
    (h : s.memguard_context.count ≤ MAX_GUARDED_OBJECTS) :
    (registered s.memguard_context).map some =
      (List.range s.memguard_context.count).map (record_at s.memguard_context) ∧
    (∃ s1, memguard_check w s =
        some ((found_corrupted w s.mem (registered s.memguard_context)).length, s1) ∧
      s1.out = s.out ++ (found_corrupted w s.mem (registered s.memguard_context)).map
        (fun p => clobber_line w p.2 p.1)) ∧
    ((found_corrupted w s.mem (registered s.memguard_context)).map
        (fun p => clobber_line w p.2 p.1)).length =
      (found_corrupted w s.mem (registered s.memguard_context)).length ∧
    ((found_corrupted w s.mem (registered s.memguard_context)).map Prod.fst).Sublist
      (registered s.memguard_context) ∧
    (∀ p ∈ found_corrupted w s.mem (registered s.memguard_context),
      corrupted w p.2 p.1 = true) := by
  refine ⟨registered_slots _ h, ⟨_, memguard_check_found w s h, rfl⟩, List.length_map _ _,
    found_corrupted_sublist w _ _, fun p hp => (found_corrupted_spec w _ _ p hp).2⟩

/-- C12 witness: the registry with `bob` and `sue`, `bob` clobbered. -/
theorem C12_sweep_visits_in_order_witness :
    ∃ s1, memguard_check 64 demo_clobbered =
        some ((found_corrupted 64 demo_clobbered.mem
          (registered demo_clobbered.memguard_context)).length, s1) ∧
      s1.out = demo_clobbered.out ++
        (found_corrupted 64 demo_clobbered.mem
          (registered demo_clobbered.memguard_context)).map
          (fun p => clobber_line 64 p.2 p.1) :=
  (C12_sweep_visits_in_order 64 demo_clobbered (by decide)).2.1

/-- C13: with a valid count `memguard_check` completes and leaves the context as it
is; it changes no byte outside the guard zones of the entries it found corrupted;
when no registered entry is corrupted the memory is unchanged; and when the storage
ranges are pairwise disjoint no byte of the user-visible span of a registered entry
is changed. -/
theorem C13_sweep_frame (w : Nat) (s : State)
    (h : s.memguard_context.count ≤ MAX_GUARDED_OBJECTS) :
    ∃ n s1, memguard_check w s = some (n, s1) ∧
      s1.memguard_context = s.memguard_context ∧
      (∀ a, (∀ p ∈ found_corrupted w s.mem (registered s.memguard_context),
          ¬ in_guard w p.1.target p.1.size p.1.count a) → s1.mem a = s.mem a) ∧
      ((∀ r ∈ registered s.memguard_context, corrupted w s.mem r = false) →
        s1.mem = s.mem) ∧
      ((registered s.memguard_context).Pairwise (disjoint_storage w) →
        ∀ r ∈ registered s.memguard_context, ∀ a,
          in_user w r.target r.size r.count a → s1.mem a = s.mem a) := by
  refine ⟨_, _, memguard_check_found w s h, rfl, ?_, ?_, ?_⟩
  · intro a ha
    exact foldl_prep_outside w _ s.mem a ha
  · intro hall
    show List.foldl _ s.mem (found_corrupted w s.mem (registered s.memguard_context)) = s.mem
    rw [found_corrupted_of_intact w _ _ hall]
    rfl
  · intro hd r hr a ha
    apply foldl_prep_outside w _ s.mem a
    intro p hp hg
    have hpr := (found_corrupted_spec w _ _ p hp).1
    by_cases e : p.1 = r
    · rw [e] at hg
      exact user_not_guard w _ _ _ a ha hg
    · have hdis := List.Pairwise.forall (disjoint_storage_symm w) hd hpr hr e
      have h1 := guard_in_storage w _ _ _ a hg
      have h2 := user_in_storage w _ _ _ a ha
      unfold disjoint_storage at hdis
      omega

/-- C13 witness: the registry with `bob` and `sue`, `bob` clobbered. -/
theorem C13_sweep_frame_witness :
    ∃ n s1, memguard_check 64 demo_clobbered = some (n, s1) ∧
      s1.memguard_context = demo_clobbered.memguard_context :=
  by
    obtain ⟨n, s1, h1, h2, _⟩ := C13_sweep_frame 64 demo_clobbered (by decide)
    exact ⟨n, s1, h1, h2⟩

/-- C14: from every state `memguard_init` gives a context with count 0 and no
registered record and changes neither the memory nor the output; a `memguard_check`
right after it returns 0 and changes nothing; and the next
`memguard_object_register` returns true and stores its record in slot 0. -/
theorem C14_init_empties_registry (w : Nat) (s : State)
    (target size count : Nat) (name : String) :
    (memguard_init s).memguard_context.count = 0 ∧
    registered (memguard_init s).memguard_context = [] ∧
    (memguard_init s).mem = s.mem ∧
    (memguard_init s).out = s.out ∧
    memguard_check w (memguard_init s) = some (0, memguard_init s) ∧
    (memguard_object_register w (memguard_init s) target size count name).1 = true ∧
    record_at (memguard_object_register w (memguard_init s) target size count
      name).2.memguard_context 0 = some ⟨target, size, count, name⟩ ∧
    registered (memguard_object_register w (memguard_init s) target size count
      name).2.memguard_context = [⟨target, size, count, name⟩] := by
  have hcount : (memguard_init s).memguard_context.count = 0 := rfl
  have hfree : (memguard_init s).memguard_context.count < MAX_GUARDED_OBJECTS := by
    rw [hcount]; decide
  have hreg := registered_of_count_zero (memguard_init s).memguard_context hcount
  refine ⟨hcount, hreg, rfl, rfl, ?_, ?_, ?_, ?_⟩
  · rw [memguard_check_eq w _ (by rw [hcount]; omega), hreg]
    rfl
  · rw [register_free w _ target size count name hfree]
  · rw [register_free w _ target size count name hfree]
    rfl
  · rw [register_free_registered w _ target size count name hfree, hreg]
    rfl

/-- C15 (as amended): for every corrupted region the clobber line of
`memguard_report_clobber`, as printed by `memguard_local_object_check` and by the
loop body of `memguard_check`, holds the address, the label and the hexadecimal
dumps of the `GUARD_LEN` bytes of the front zone and of the back zone, from which
the bytes can be read back; element size and count are not printed. -/
theorem C15_clobber_line_contents (w : Nat) (s : State) (fails : Nat)
    (target size count : Nat) (name : String)
    (h : memguard_object_check w s.mem target size count = true) :
    memguard_report_clobber w s.mem s.out target size count name =
      s.out ++ [LogMsg.clobber target name
        (String.mk (hex_encode (read_bytes s.mem target GUARD_LEN)))
        (String.mk (hex_encode (read_bytes s.mem
          (target + GUARD_LEN + (count * size) % 2 ^ w) GUARD_LEN)))] ∧
    (memguard_local_object_check w s target size count name).2.out =
      memguard_report_clobber w s.mem s.out target size count name ∧
    (sweep_step w ⟨fails, s.mem, s.out⟩ ⟨target, size, count, name⟩).out =
      memguard_report_clobber w s.mem s.out target size count name ∧
    hex_decode (hex_encode (read_bytes s.mem target GUARD_LEN)) =
      some (read_bytes s.mem target GUARD_LEN) ∧
    hex_decode (hex_encode (read_bytes s.mem
        (target + GUARD_LEN + (count * size) % 2 ^ w) GUARD_LEN)) =
      some (read_bytes s.mem (target + GUARD_LEN + (count * size) % 2 ^ w) GUARD_LEN) := by
  refine ⟨?_, ?_, ?_, hex_decode_encode _, hex_decode_encode _⟩
  · rw [report_eq, clobber_line_eq]
  · unfold memguard_local_object_check
    rw [if_pos h]
  · unfold sweep_step
    rw [if_pos h]

/-- C15 witness: Scenario B, the clobbered region `bob`. -/
theorem C15_clobber_line_contents_witness :
    memguard_report_clobber 64 demo_clobbered.mem demo_clobbered.out 1000 2 64 "bob" =
      demo_clobbered.out ++ [LogMsg.clobber 1000 "bob"
        (String.mk (hex_encode (read_bytes demo_clobbered.mem 1000 GUARD_LEN)))
        (String.mk (hex_encode (read_bytes demo_clobbered.mem
          (1000 + GUARD_LEN + (64 * 2) % 2 ^ 64) GUARD_LEN)))] :=
  (C15_clobber_line_contents 64 demo_clobbered 0 1000 2 64 "bob" (by decide)).1

/-- C15 counterexample: in an all-zero memory the region at address 0 with element
size 2 and count 2 and the one with element size 4 and count 8 are both corrupted,
and the clobber lines printed for them are the same, so the line holds neither the
element size nor the element count. -/
theorem C15_counterexample :
    memguard_object_check 64 (fun _ => 0) 0 2 2 = true ∧
    memguard_object_check 64 (fun _ => 0) 0 4 8 = true ∧
    memguard_report_clobber 64 (fun _ => 0) [] 0 2 2 "x" =
      memguard_report_clobber 64 (fun _ => 0) [] 0 4 8 "x" := by
  decide

/-- C16 (as amended): for every byte sequence of a length `n` below `2 ^ 32`, read
from memory at `src`, the loop of `bin_to_hex` is left once it has `n + 1` units of
fuel; it has then stored `2 * n + 1` characters: `2 * n` characters of
`0123456789abcdef`, those at `2 * i` and `2 * i + 1` the digits of the high and the
low nibble of byte `i`, and one NUL; decoding the `2 * n` digits gives the bytes
back; and for `n = GUARD_LEN` the characters stored fit in a buffer of `SL` bytes. -/
theorem C16_bin_to_hex_dump (m : Mem) (src n : Nat) (hn : n < 2 ^ 32) :
    (∀ fuel, n + 1 ≤ fuel →
      bin_to_hex_loop m src n fuel 0 [] = some (bin_to_hex m src n)) ∧
    (bin_to_hex m src n).length = 2 * n + 1 ∧
    (∀ c ∈ (bin_to_hex m src n).take (2 * n), c ∈ digits) ∧
    (bin_to_hex m src n).drop (2 * n) = [NUL] ∧
    (∀ i, i < n →
      (bin_to_hex m src n)[2 * i]? = some (nibble_char ((m (src + i)).val / 16)) ∧
      (bin_to_hex m src n)[2 * i + 1]? = some (nibble_char ((m (src + i)).val % 16))) ∧
    hex_decode ((bin_to_hex m src n).take (2 * n)) = some (read_bytes m src n) ∧
    (n = GUARD_LEN → (bin_to_hex m src n).length ≤ SL) ∧
    SL = 2 * GUARD_LEN + 16 := by
  refine ⟨fun fuel hf => bin_to_hex_loop_enough m src n fuel hn hf,
    bin_to_hex_length m src n, ?_, bin_to_hex_drop m src n,
    fun i hi => bin_to_hex_get m src n i hi, ?_, ?_, by decide⟩
  · rw [bin_to_hex_take]
    exact hex_encode_mem_digits _
  · rw [bin_to_hex_take]
    exact hex_decode_encode _
  · intro e
    rw [bin_to_hex_length, e]
    decide

/-- C16 witness: the `GUARD_LEN` bytes of the front zone of the clobbered `bob`. -/
theorem C16_bin_to_hex_dump_witness :
    (bin_to_hex demo_clobbered.mem 1000 GUARD_LEN).length = 2 * GUARD_LEN + 1 ∧
    hex_decode ((bin_to_hex demo_clobbered.mem 1000 GUARD_LEN).take (2 * GUARD_LEN)) =
      some (read_bytes demo_clobbered.mem 1000 GUARD_LEN) :=
  have h := C16_bin_to_hex_dump demo_clobbered.mem 1000 GUARD_LEN (by decide)
  ⟨h.2.1, h.2.2.2.2.2.1⟩

/-- C16 counterexample: for a source of `2 ^ 32` bytes the 32-bit index of the loop
of `bin_to_hex` wraps to 0 before it reaches the length, so with no amount of fuel
does the loop return: nothing is ever followed by the terminating NUL. -/
theorem C16_counterexample :
    ¬ ∃ fuel out, bin_to_hex_loop (fun _ => 0) 0 (2 ^ 32) fuel 0 [] = some out := by
  rintro ⟨fuel, out, h⟩
  rw [bin_to_hex_loop_wraps (fun _ => 0) 0 (2 ^ 32) (Nat.le_refl _) fuel 0 []
    (by decide)] at h
  cases h

/-- C17: with a valid count `memguard_check` completes and prints, for each entry
found corrupted when visited, the clobber line built from the memory at that visit,
in which the entry is still corrupted: the two dumps encode the guard bytes of that
memory, one of them is not the dump of sixteen `0x77`, and the repaint that follows
sets both zones to `0x77`; this is what the loop body does in every state. -/
theorem C17_report_before_repaint (w : Nat) (s : State)
    (h : s.memguard_context.count ≤ MAX_GUARDED_OBJECTS) :
    (∃ n s1, memguard_check w s = some (n, s1) ∧
      s1.out = s.out ++ (found_corrupted w s.mem (registered s.memguard_context)).map
        (fun p => LogMsg.clobber p.1.target p.1.name
          (String.mk (hex_encode (read_bytes p.2 p.1.target GUARD_LEN)))
          (String.mk (hex_encode (read_bytes p.2
            (p.1.target + GUARD_LEN + (p.1.count * p.1.size) % 2 ^ w) GUARD_LEN)))) ∧
      ∀ r ∈ registered s.memguard_context, corrupted w s1.mem r = false) ∧
    (∀ p ∈ found_corrupted w s.mem (registered s.memguard_context),
      corrupted w p.2 p.1 = true ∧
      (String.mk (hex_encode (read_bytes p.2 p.1.target GUARD_LEN)) ≠
          "77777777777777777777777777777777" ∨
        String.mk (hex_encode (read_bytes p.2
          (p.1.target + GUARD_LEN + (p.1.count * p.1.size) % 2 ^ w) GUARD_LEN)) ≠
          "77777777777777777777777777777777") ∧
      read_bytes (memguard_object_prep w p.2 p.1.target p.1.size p.1.count)
          p.1.target GUARD_LEN = List.replicate GUARD_LEN GUARD_SENTINEL ∧
      read_bytes (memguard_object_prep w p.2 p.1.target p.1.size p.1.count)
          (p.1.target + GUARD_LEN + (p.1.count * p.1.size) % 2 ^ w) GUARD_LEN =
        List.replicate GUARD_LEN GUARD_SENTINEL) ∧
    (∀ (st : SweepState) (gr : guarded_record_t), corrupted w st.mem gr = true →
      sweep_step w st gr =
        { fails := st.fails + 1,
          mem := memguard_object_prep w st.mem gr.target gr.size gr.count,
          out := st.out ++ [LogMsg.clobber gr.target gr.name
            (String.mk (hex_encode (read_bytes st.mem gr.target GUARD_LEN)))
            (String.mk (hex_encode (read_bytes st.mem
              (gr.target + GUARD_LEN + (gr.count * gr.size) % 2 ^ w) GUARD_LEN)))] }) := by
  refine ⟨⟨_, _, memguard_check_eq w s h, ?_, ?_⟩, ?_, ?_⟩
  · show (sweep w _ _).out = _
    rw [sweep_eq_found]
    simp only [clobber_line_eq]
  · exact sweep_all_intact w _ _
  · intro p hp
    have hc := (found_corrupted_spec w _ _ p hp).2
    refine ⟨hc, ?_, (prep_dump w p.2 _ _ _).1, (prep_dump w p.2 _ _ _).2⟩
    rcases corrupted_dump w p.2 _ _ _ hc with hf | hb
    · exact Or.inl (dump_ne_sentinel _ hf)
    · exact Or.inr (dump_ne_sentinel _ hb)
  · intro st gr hc
    rw [sweep_step_of_corrupted w st gr hc, clobber_line_eq]

/-- C17 witness: the registry with `bob` and `sue`, `bob` clobbered. -/
theorem C17_report_before_repaint_witness :
    ∃ n s1, memguard_check 64 demo_clobbered = some (n, s1) ∧
      ∀ r ∈ registered demo_clobbered.memguard_context, corrupted 64 s1.mem r = false := by
  obtain ⟨n, s1, h1, _, h3⟩ := (C17_report_before_repaint 64 demo_clobbered (by decide)).1
  exact ⟨n, s1, h1, h3⟩

/-- C18: from `memguard_init`, after any sequence of `memguard_object_register`,
`memguard_object_prep`, `memguard_check` and `memguard_local_object_check` calls,
and after any further such calls, every call has completed without a read or write
outside the `records` array, the count is at most `MAX_GUARDED_OBJECTS` and is the
number of registered records, the next sweep stays inside the array, and the
records registered at the earlier point are a prefix of those registered later. -/
theorem C18_count_bounded_append_only (w : Nat) (s0 : State) (ops1 ops2 : List Op) :
    ∃ s1 s2, run w (memguard_init s0) ops1 = some s1 ∧
      run w (memguard_init s0) (ops1 ++ ops2) = some s2 ∧
      s1.memguard_context.count ≤ MAX_GUARDED_OBJECTS ∧
      s2.memguard_context.count ≤ MAX_GUARDED_OBJECTS ∧
      (registered s1.memguard_context).length = s1.memguard_context.count ∧
      (registered s1.memguard_context).map some =
        (List.range s1.memguard_context.count).map (record_at s1.memguard_context) ∧
      (memguard_check w s1).isSome = true ∧
      registered s1.memguard_context <+: registered s2.memguard_context := by
  have hinit : (memguard_init s0).memguard_context.count ≤ MAX_GUARDED_OBJECTS :=
    Nat.zero_le _
  obtain ⟨s1, hrun1, hc1, _⟩ := run_ok w ops1 (memguard_init s0) hinit
  obtain ⟨s2, hrun2, hc2, hp2⟩ := run_ok w ops2 s1 hc1
  refine ⟨s1, s2, hrun1, ?_, hc1, hc2, registered_length _ hc1, registered_slots _ hc1,
    ?_, hp2⟩
  · rw [run_append, hrun1]
    exact hrun2
  · rw [memguard_check_eq w s1 hc1]
    rfl

/-- C19: with a valid count and no disjointness assumed, `memguard_check` returns at
most the number of registered entries that were corrupted at the start of the sweep
and at most the count; and when the registry holds the same corrupted region twice
it returns 1 although two entries were corrupted at the start. -/
theorem C19_sweep_count_upper_bound (w : Nat) (s : State)
    (h : s.memguard_context.count ≤ MAX_GUARDED_OBJECTS) :
    (∃ n s1, memguard_check w s = some (n, s1) ∧
      n ≤ (registered s.memguard_context).countP (corrupted w s.mem) ∧
      n ≤ s.memguard_context.count) ∧
    (∀ gr1 gr2 : guarded_record_t, registered s.memguard_context = [gr1, gr2] →
      gr2.target = gr1.target → gr2.size = gr1.size → gr2.count = gr1.count →
      corrupted w s.mem gr1 = true →
      (memguard_check w s).map Prod.fst = some 1 ∧
      (registered s.memguard_context).countP (corrupted w s.mem) = 2) := by
  have hle := sweep_fails_le w (registered s.memguard_context) ⟨0, s.mem, s.out⟩
  have hcp := List.countP_le_length (corrupted w s.mem) (l := registered s.memguard_context)
  have hlen := registered_length_le s.memguard_context
  constructor
  · refine ⟨_, _, memguard_check_eq w s h, ?_, ?_⟩
    · simpa using hle
    · simp only [Nat.zero_add] at hle
      omega
  · intro gr1 gr2 hreg ht hs hc hcor
    have hcor2 : corrupted w s.mem gr2 = true := by
      unfold corrupted at hcor ⊢
      rw [ht, hs, hc]; exact hcor
    have hafter : corrupted w
        (memguard_object_prep w s.mem gr1.target gr1.size gr1.count) gr2 = false := by
      unfold corrupted
      rw [ht, hs, hc]
      exact check_prep w s.mem _ _ _
    constructor
    · rw [memguard_check_eq w s h, hreg, Option.map_some', sweep_cons, sweep_cons,
        sweep_step_of_corrupted w _ gr1 hcor, sweep_step_of_intact w _ gr2 hafter]
      rfl
    · rw [hreg]
      simp [List.countP_cons, hcor, hcor2]

/-- C19 witness: `bob` registered twice and clobbered; the sweep returns 1 and two
entries were corrupted at its start. -/
theorem C19_sweep_count_upper_bound_witness :
    (memguard_check 64 demo_twice).map Prod.fst = some 1 ∧
    (registered demo_twice.memguard_context).countP (corrupted 64 demo_twice.mem) = 2 :=
  (C19_sweep_count_upper_bound 64 demo_twice (by decide)).2
    ⟨1000, 2, 64, "bob"⟩ ⟨1000, 2, 64, "bob2"⟩ (by decide) rfl rfl rfl (by decide)

/-- C20: a region that checks as not corrupted still does so after
`memguard_object_prep` of any region, after any `memguard_object_register` call,
after `memguard_check` on any registry (which completes when the count is valid),
and after `memguard_local_object_check`, whatever the overlap with the region. -/
theorem C20_no_operation_corrupts (w : Nat) (s : State) (target size count : Nat)
    (h : memguard_object_check w s.mem target size count = false) :
    (∀ t2 s2 c2 : Nat,
      memguard_object_check w (memguard_object_prep w s.mem t2 s2 c2)
        target size count = false) ∧
    (∀ (t2 s2 c2 : Nat) (name : String),
      memguard_object_check w (memguard_object_register w s t2 s2 c2 name).2.mem
        target size count = false) ∧
    (∀ r, memguard_check w s = some r →
      memguard_object_check w r.2.mem target size count = false) ∧
    (s.memguard_context.count ≤ MAX_GUARDED_OBJECTS → (memguard_check w s).isSome = true) ∧
    (∀ (t2 s2 c2 : Nat) (name : String),
      memguard_object_check w (memguard_local_object_check w s t2 s2 c2 name).2.mem
        target size count = false) := by
  refine ⟨fun t2 s2 c2 => prep_keeps_intact w s.mem _ _ _ t2 s2 c2 h, ?_, ?_, ?_, ?_⟩
  · intro t2 s2 c2 name
    by_cases hfree : s.memguard_context.count < MAX_GUARDED_OBJECTS
    · rw [register_free w s t2 s2 c2 name hfree]
      exact prep_keeps_intact w s.mem _ _ _ t2 s2 c2 h
    · rw [register_full w s t2 s2 c2 name hfree]
      exact h
  · intro r hr
    unfold memguard_check memguard_check_loop at hr
    cases hloop : (List.range s.memguard_context.count).foldlM
        (fun st i => (record_at s.memguard_context i).map (sweep_step w st))
        (⟨0, s.mem, s.out⟩ : SweepState) with
    | none => rw [hloop] at hr; cases hr
    | some st1 =>
      rw [hloop] at hr
      simp only [Option.map_some', Option.some.injEq] at hr
      rw [← hr]
      exact foldlM_keeps_intact w s.memguard_context ⟨target, size, count, ""⟩ _ _ st1
        hloop h
  · intro hc
    rw [memguard_check_eq w s hc]
    rfl
  · intro t2 s2 c2 name
    rw [local_check_state]
    exact h

/-- C20 witness: `sue` checks as not corrupted in the state where `bob` is
clobbered, and still does after a repaint of `bob`; the sweep of that state
completes. -/
theorem C20_no_operation_corrupts_witness :
    memguard_object_check 64 (memguard_object_prep 64 demo_clobbered.mem 1000 2 64)
      2000 8 512 = false ∧
    (memguard_check 64 demo_clobbered).isSome = true :=
  have h := C20_no_operation_corrupts 64 demo_clobbered 2000 8 512 (by decide)
  ⟨h.1 1000 2 64, h.2.2.2.1 (by decide)⟩

end Memguard
